import Mathlib

/-!
Verification of the carbonapi expression engine (src/expr.go).

Modelling conventions, used throughout this development:

* Go `float64` values are modelled by the type `F` below: either NaN, a signed
  infinity, or an exact rational.  Arithmetic follows the IEEE-754 rules for
  NaN and infinity propagation; finite arithmetic is exact (rounding of the
  binary64 format is outside the scope of this model).  There is a single
  (unsigned) zero.
* Go `int32`/`int` values are modelled by `Int`; where the source performs
  32-bit arithmetic that may wrap (the planner offsets), the wrap is made
  explicit with `i32`.
* Parallel slices (`Values`/`IsAbsent`) are indexed with total lookup
  functions `fidx`/`bidx` that return a default out of range.  At inputs
  where the Go code would panic (out-of-range index, nil-pointer
  dereference) the model instead returns these defaults; every theorem below
  either has hypotheses ruling such inputs out or does not depend on them.
* Go nil pointers inside `[]*metricData` are modelled by `Option MetricData`,
  with `derefMD none` giving the zero value that the protobuf getters would
  return for a nil receiver.
-/

/-- Rational addition computed on numerators and denominators via
`mkRat`.  The standard `ℚ` operations are used in proofs through the
bridging lemmas `qadd_eq` etc.; these primitive forms reduce inside the
kernel, so concrete witnesses can be checked by `decide`. -/
def qadd (a b : ℚ) : ℚ := mkRat (a.num * b.den + b.num * a.den) (a.den * b.den)

/-- Rational negation via `mkRat` (see `qadd`). -/
def qneg (a : ℚ) : ℚ := mkRat (-a.num) a.den

/-- Rational multiplication via `mkRat` (see `qadd`). -/
def qmul (a b : ℚ) : ℚ := mkRat (a.num * b.num) (a.den * b.den)

/-- Rational inverse via `mkRat` (see `qadd`); maps 0 to 0 like `Inv ℚ`. -/
def qinv (b : ℚ) : ℚ :=
  if b.num < 0 then mkRat (-(b.den : Int)) b.num.natAbs
  else mkRat (b.den : Int) b.num.natAbs

/-- Rational division via `mkRat` (see `qadd`). -/
def qdiv (a b : ℚ) : ℚ := qmul a (qinv b)

/-- Rational absolute value via `mkRat` (see `qadd`). -/
def qabs (a : ℚ) : ℚ := mkRat a.num.natAbs a.den

/-- Model of Go `float64`: NaN, signed infinity (`inf true` is `+Inf`),
or an exact rational. -/
inductive F where
  | nan : F
  | inf : Bool → F
  | fin : ℚ → F
deriving DecidableEq, Repr

/-- Model of `math.IsNaN`. -/
def F.isNaN : F → Bool
  | .nan => true
  | _ => false

/-- IEEE negation. -/
def F.neg : F → F
  | .nan => .nan
  | .inf p => .inf (!p)
  | .fin q => .fin (qneg q)

/-- IEEE addition (`+Inf + -Inf = NaN`; NaN propagates). -/
def F.add : F → F → F
  | .nan, _ => .nan
  | _, .nan => .nan
  | .inf p, .inf q => if p = q then .inf p else .nan
  | .inf p, .fin _ => .inf p
  | .fin _, .inf q => .inf q
  | .fin a, .fin b => .fin (qadd a b)

/-- IEEE subtraction. -/
def F.sub (x y : F) : F := F.add x (F.neg y)

/-- IEEE multiplication (`Inf * 0 = NaN`). -/
def F.mul : F → F → F
  | .nan, _ => .nan
  | _, .nan => .nan
  | .inf p, .inf q => .inf (p == q)
  | .inf p, .fin b => if b = 0 then .nan else .inf (p == decide (0 < b))
  | .fin a, .inf q => if a = 0 then .nan else .inf (q == decide (0 < a))
  | .fin a, .fin b => .fin (qmul a b)

/-- IEEE division (`0/0 = NaN`, `x/0 = ±Inf` for finite nonzero `x`,
`Inf/Inf = NaN`, finite`/Inf = 0`; the single model zero is treated as
`+0`). -/
def F.div : F → F → F
  | .nan, _ => .nan
  | _, .nan => .nan
  | .inf _, .inf _ => .nan
  | .inf p, .fin b => .inf (p == decide (0 ≤ b))
  | .fin _, .inf _ => .fin 0
  | .fin a, .fin b =>
      if b = 0 then (if a = 0 then .nan else .inf (decide (0 < a)))
      else .fin (qdiv a b)

/-- Model of `math.Abs`. -/
def F.fabs : F → F
  | .nan => .nan
  | .inf _ => .inf true
  | .fin q => .fin (qabs q)

/-- IEEE `<` (false whenever an operand is NaN). -/
def F.blt : F → F → Bool
  | .nan, _ => false
  | _, .nan => false
  | .inf p, .inf q => !p && q
  | .inf p, .fin _ => !p
  | .fin _, .inf q => q
  | .fin a, .fin b => decide (a < b)

/-- IEEE `<=` (false whenever an operand is NaN). -/
def F.ble : F → F → Bool
  | .nan, _ => false
  | _, .nan => false
  | .inf p, .inf q => !p || q
  | .inf p, .fin _ => !p
  | .fin _, .inf q => q
  | .fin a, .fin b => decide (a ≤ b)

/-- IEEE `>`. -/
def F.bgt (x y : F) : Bool := F.blt y x

/-- IEEE `>=`. -/
def F.bge (x y : F) : Bool := F.ble y x

/-- IEEE `==` (false whenever an operand is NaN). -/
def F.beq : F → F → Bool
  | .inf p, .inf q => p == q
  | .fin a, .fin b => a == b
  | _, _ => false

/-- Model of the Go conversion `int(f)` for a `float64` `f`: truncation
toward zero (`num.tdiv den` truncates toward zero and `den > 0`).  The
conversion is unspecified in Go for NaN and infinities; the model returns
0 there (no theorem depends on that choice). -/
def F.toInt : F → Int
  | .fin q => q.num.tdiv q.den
  | _ => 0

/-- Wrap an integer into the two's-complement `int32` range, modelling Go
32-bit integer arithmetic. -/
def i32 (x : Int) : Int := (x + 2 ^ 31) % 2 ^ 32 - 2 ^ 31

/-- Model of Go struct `metricRequest` (src/expr.go): the key of a planned
fetch.  Field names `from`/`until` are Lean keywords, hence the `req`
prefix. -/
structure MetricRequest where
  metric : String
  reqFrom : Int
  reqUntil : Int
deriving DecidableEq, Repr

/-- Model of Go struct `metricData`: the embedded protobuf `FetchResponse`
fields plus the presentation attributes set by the evaluator. -/
structure MetricData where
  name : String
  startTime : Int
  stopTime : Int
  stepTime : Int
  values : List F
  isAbsent : List Bool
  color : String
  dashed : Bool
  drawAsInfinite : Bool
  secondYAxis : Bool
deriving DecidableEq, Repr

/-- Dereference of a `*metricData`: a nil pointer yields the zero value
(matching the nil-receiver behaviour of the protobuf getters; at the few
places where Go would instead panic on nil, no theorem depends on the
result). -/
def derefMD : Option MetricData → MetricData
  | some d => d
  | none => ⟨"", 0, 0, 0, [], [], "", false, false, false⟩

/-- Total lookup in a `Values` slice (Go would panic out of range). -/
def fidx (l : List F) (i : Nat) : F := (l.get? i).getD (.fin 0)

/-- Total lookup in an `IsAbsent` slice (Go would panic out of range). -/
def bidx (l : List Bool) (i : Nat) : Bool := l.getD i false

/-- Pair the `Values` slice with the parallel `IsAbsent` slice, padding a
short absence slice with `false` (Go panics where the padding is used). -/
def zipPad : List F → List Bool → List (F × Bool)
  | [], _ => []
  | v :: vs, [] => (v, false) :: zipPad vs []
  | v :: vs, b :: bs => (v, b) :: zipPad vs bs

/-- Model of Go `exprType` (src/expr.go). -/
inductive ExprType where
  | etName | etFunc | etConst | etString
deriving DecidableEq, Repr

mutual
/-- Model of Go struct `expr` (src/expr.go): a parsed target expression.
The `args` slice is represented by the mutually defined `ExprList` so that
the evaluator can be defined by structural recursion. -/
inductive Expr where
  | mk (target : String) (etype : ExprType) (val : F) (valStr : String)
       (args : ExprList) (argString : String)
deriving Repr

/-- List of argument subexpressions (`[]*expr` in Go). -/
inductive ExprList where
  | nil : ExprList
  | cons (e : Expr) (es : ExprList) : ExprList
deriving Repr
end

/-- Field `target` of an `expr`. -/
def Expr.target : Expr → String
  | .mk t _ _ _ _ _ => t

/-- Field `etype` of an `expr`. -/
def Expr.etype : Expr → ExprType
  | .mk _ t _ _ _ _ => t

/-- Field `val` of an `expr` (a numeric literal). -/
def Expr.val : Expr → F
  | .mk _ _ v _ _ _ => v

/-- Field `valStr` of an `expr` (a string literal). -/
def Expr.valStr : Expr → String
  | .mk _ _ _ s _ _ => s

/-- Field `args` of an `expr`. -/
def Expr.args : Expr → ExprList
  | .mk _ _ _ _ a _ => a

/-- Field `argString` of an `expr`. -/
def Expr.argString : Expr → String
  | .mk _ _ _ _ _ s => s

/-- Length of an argument list (`len(e.args)` in Go). -/
def ExprList.length : ExprList → Nat
  | .nil => 0
  | .cons _ es => es.length + 1

/-- Indexing into an argument list; `none` corresponds to the Go bounds
check `len(e.args) <= n`. -/
def ExprList.get? : ExprList → Nat → Option Expr
  | .nil, _ => none
  | .cons e _, 0 => some e
  | .cons _ es, n + 1 => es.get? n

/-- The evaluator error values of src/expr.go (`ErrBadType`,
`ErrMissingArgument`, `ErrMissingTimeseries`). -/
inductive Err where
  | badType | missingArgument | missingTimeseries
deriving DecidableEq, Repr

/-- Model of Go `getStringArg` (src/expr.go), on the argument list. -/
def getStringArgL (args : ExprList) (n : Nat) : Except Err String :=
  match args.get? n with
  | none => .error .missingArgument
  | some a => if a.etype = .etString then .ok a.valStr else .error .badType

/-- Model of Go `getStringArg` (src/expr.go). -/
def getStringArg (e : Expr) (n : Nat) : Except Err String := getStringArgL e.args n

/-- Model of Go `getFloatArg` (src/expr.go), on the argument list. -/
def getFloatArgL (args : ExprList) (n : Nat) : Except Err F :=
  match args.get? n with
  | none => .error .missingArgument
  | some a => if a.etype = .etConst then .ok a.val else .error .badType

/-- Model of Go `getFloatArg` (src/expr.go). -/
def getFloatArg (e : Expr) (n : Nat) : Except Err F := getFloatArgL e.args n

/-- Model of Go `getIntArg` (src/expr.go): `int(e.args[n].val)`, on the
argument list. -/
def getIntArgL (args : ExprList) (n : Nat) : Except Err Int :=
  match args.get? n with
  | none => .error .missingArgument
  | some a => if a.etype = .etConst then .ok a.val.toInt else .error .badType

/-- Model of Go `getIntArg` (src/expr.go). -/
def getIntArg (e : Expr) (n : Nat) : Except Err Int := getIntArgL e.args n

/-- Unit table for interval strings, §4.4 of the spec: second, minute,
hour, day, week, month (30 days), year (365 days). -/
def unitTable : List (String × Int) :=
  [("s", 1), ("sec", 1), ("min", 60), ("h", 3600), ("hour", 3600),
   ("d", 86400), ("day", 86400), ("w", 604800), ("week", 604800),
   ("mon", 2592000), ("month", 2592000), ("y", 31536000), ("year", 31536000)]

/-- ASCII lower-casing of one character. -/
def charLower (c : Char) : Char :=
  if 65 ≤ c.toNat ∧ c.toNat ≤ 90 then Char.ofNat (c.toNat + 32) else c

/-- Prefix test on character lists. -/
def listPrefixOf : List Char → List Char → Bool
  | [], _ => true
  | _ :: _, [] => false
  | a :: as, b :: bs => a == b && listPrefixOf as bs

/-- ASCII decimal-digit test. -/
def isDigitCh (c : Char) : Bool := 48 ≤ c.toNat && c.toNat ≤ 57

/-- Modelled from the spec: unit-suffix matching for `intervalString`
(§4.4), which is declared in this repository but not under src/.  A
lower-cased suffix is accepted when it is a prefix of at least one unit
name and all unit names it prefixes agree on the length in seconds
("shortest unambiguous prefix"). -/
def unitSeconds (u : List Char) : Option Int :=
  if u.isEmpty then none
  else
    match (List.map Prod.snd
        (unitTable.filter (fun p => listPrefixOf u p.fst.toList))).dedup with
    | [v] => some v
    | _ => none

/-- Numeric value of a digit string. -/
def digitsToInt (cs : List Char) : Int :=
  cs.foldl (fun acc c => acc * 10 + ((c.toNat : Int) - 48)) 0

/-- Modelled from the spec: `intervalString` (§4.4) is declared in this
repository but not under src/.  Format: optional sign, integer magnitude,
case-insensitive unit suffix; returns signed seconds (as `int32`);
`defaultSign` applies only when no sign prefix is present. -/
def intervalString (s : String) (defaultSign : Int) : Except Unit Int :=
  let p : Int × List Char :=
    match s.toList with
    | '-' :: r => (-1, r)
    | '+' :: r => (1, r)
    | r => (defaultSign, r)
  let digits := p.2.takeWhile isDigitCh
  let rest := p.2.dropWhile isDigitCh
  if digits.isEmpty then .error ()
  else
    match unitSeconds (rest.map charLower) with
    | none => .error ()
    | some u => .ok (i32 (p.1 * digitsToInt digits * u))

/-- Model of Go `getIntervalArg` (src/expr.go): missing argument, a
non-string argument, and an unparsable interval are all errors.  On the
argument list. -/
def getIntervalArgL (args : ExprList) (n : Nat) (defaultSign : Int) : Except Err Int :=
  match args.get? n with
  | none => .error .missingArgument
  | some a =>
      if a.etype = .etString then
        match intervalString a.valStr defaultSign with
        | .error _ => .error .badType
        | .ok seconds => .ok seconds
      else .error .badType

/-- Model of Go `getIntervalArg` (src/expr.go). -/
def getIntervalArg (e : Expr) (n : Nat) (defaultSign : Int) : Except Err Int :=
  getIntervalArgL e.args n defaultSign

/-- The time-window rewrites of Go `(*expr).metrics` (src/expr.go),
applied to the requests `r` collected from the argument subtree:
`timeShift` shifts `from` and `until` by the parsed interval of argument
1 (default sign `-1`), discarding everything when the interval is missing
or unparsable; `holtWintersForecast` moves every `from` seven days back;
every other target leaves `r` unchanged.  Arithmetic is Go `int32`. -/
def funcRewrites (target : String) (args : ExprList) (r : List MetricRequest) :
    List MetricRequest :=
  match target with
  | "timeShift" =>
      match getIntervalArgL args 1 (-1) with
      | .error _ => []
      | .ok offs =>
          r.map (fun q => ⟨q.metric, i32 (q.reqFrom + offs), i32 (q.reqUntil + offs)⟩)
  | "holtWintersForecast" =>
      r.map (fun q => ⟨q.metric, i32 (q.reqFrom - 7 * 86400), q.reqUntil⟩)
  | _ => r

mutual
/-- Model of Go `(*expr).metrics` (src/expr.go): the planner.  A `Name`
leaf contributes one zero-offset request; `Const`/`String` contribute
nothing; a `Func` unions the requests of its arguments and then applies
the `timeShift` / `holtWintersForecast` window rewrites. -/
def metrics : Expr → List MetricRequest
  | .mk target etype _ _ args _ =>
    match etype with
    | .etName => [⟨target, 0, 0⟩]
    | .etConst => []
    | .etString => []
    | .etFunc => funcRewrites target args (metricsList args)

/-- Requests of all argument subexpressions, in order. -/
def metricsList : ExprList → List MetricRequest
  | .nil => []
  | .cons e es => metrics e ++ metricsList es
end

/-- Model of Go `maxValue` (src/expr.go): maximum over non-absent samples,
starting from `-Inf`. -/
def maxValue (vs : List F) (ab : List Bool) : F :=
  (zipPad vs ab).foldl
    (fun m p => if p.2 then m else if F.bgt p.1 m then p.1 else m) (.inf false)

/-- Model of Go `minValue` (src/expr.go): minimum over non-absent samples,
starting from `+Inf`. -/
def minValue (vs : List F) (ab : List Bool) : F :=
  (zipPad vs ab).foldl
    (fun m p => if p.2 then m else if F.blt p.1 m then p.1 else m) (.inf true)

/-- Model of Go `avgValue` (src/expr.go): sum of non-absent samples divided
by their count (`0/0 = NaN` when every sample is absent). -/
def avgValue (vs : List F) (ab : List Bool) : F :=
  let p := (zipPad vs ab).foldl
    (fun acc q => if q.2 then acc else (F.add acc.1 q.1, acc.2 + 1))
    ((.fin 0 : F), (0 : Nat))
  F.div p.1 (.fin p.2)

/-- Model of Go `currentValue` (src/expr.go): the last non-absent sample,
NaN if none. -/
def currentValue (vs : List F) (ab : List Bool) : F :=
  match (zipPad vs ab).reverse.find? (fun p => !p.2) with
  | some p => p.1
  | none => .nan

/-- The `sum`/`sumSeries` reducer lambda of src/expr.go. -/
def sumAgg (values : List F) : F := values.foldl F.add (.fin 0)

/-- The `avg`/`averageSeries` reducer lambda of src/expr.go. -/
def avgAgg (values : List F) : F :=
  F.div (values.foldl F.add (.fin 0)) (.fin values.length)

/-- The `maxSeries` reducer lambda of src/expr.go. -/
def maxAgg (values : List F) : F :=
  values.foldl (fun m v => if F.bgt v m then v else m) (.inf false)

/-- The `minSeries` reducer lambda of src/expr.go. -/
def minAgg (values : List F) : F :=
  values.foldl (fun m v => if F.blt v m then v else m) (.inf true)

/-- The values of the input series that are not absent at index `i`, in
input order (the inner collection loop of Go `aggregateSeries`). -/
def presentAt (args : List (Option MetricData)) (i : Nat) : List F :=
  args.filterMap (fun ao =>
    let a := derefMD ao
    if bidx a.isAbsent i then none else some (fidx a.values i))

/-- Model of Go `aggregateSeries` (src/expr.go): one output series shaped
after `args[0]`, each point the reducer over the non-absent inputs, NaN
(hence absent) when every input is absent. -/
def aggregateSeries (target argString : String) (args : List (Option MetricData))
    (f : List F → F) : List (Option MetricData) :=
  let a0 := derefMD (args.headD none)
  let vals := (List.range a0.values.length).map (fun i =>
    let values := presentAt args i
    if values.isEmpty then F.nan else f values)
  [some { a0 with
          name := (target ++ "(" ++ argString ++ ")"),
          values := vals,
          isAbsent := vals.map F.isNaN }]

/-- The fresh output series allocated by Go `forEachSeriesDo`
(src/expr.go): same fields as the input, name `target(inputName)`, zeroed
value and absence slices of the input length. -/
def freshCopy (target : String) (a : MetricData) : MetricData :=
  { a with
    name := (target ++ "(" ++ a.name ++ ")"),
    values := List.replicate a.values.length (.fin 0),
    isAbsent := List.replicate a.values.length false }

/-- Model of Go `forEachSeriesDo` (src/expr.go), applied to an already
evaluated argument list. -/
def forEachSeriesDo (target : String) (arg : List (Option MetricData))
    (f : MetricData → MetricData → MetricData) : List (Option MetricData) :=
  arg.map (fun ao => let a := derefMD ao; some (f a (freshCopy target a)))

/-- Body of the `absolute` case of src/expr.go. -/
def absoluteFn (a r : MetricData) : MetricData :=
  { r with
    values := (zipPad a.values a.isAbsent).map (fun p => if p.2 then .fin 0 else F.fabs p.1),
    isAbsent := (zipPad a.values a.isAbsent).map (fun p => p.2) }

/-- Body of the `isNonNull` case of src/expr.go: 1 where present, 0 where
absent, and the output absence flags all cleared. -/
def isNonNullFn (a r : MetricData) : MetricData :=
  { r with
    values := (zipPad a.values a.isAbsent).map (fun p => if p.2 then .fin 0 else .fin 1),
    isAbsent := List.replicate a.values.length false }

/-- Loop of the `integral` case of src/expr.go: running sum over
non-absent samples (the accumulator is not reset at absent samples, which
store 0 and are marked absent). -/
def intGo : F → List (F × Bool) → List (F × Bool)
  | _, [] => []
  | cur, p :: rest =>
      if p.2 then (.fin 0, true) :: intGo cur rest
      else (F.add cur p.1, false) :: intGo (F.add cur p.1) rest

/-- Body of the `integral` case of src/expr.go. -/
def integralFn (a r : MetricData) : MetricData :=
  let out := intGo (.fin 0) (zipPad a.values a.isAbsent)
  { r with values := out.map Prod.fst, isAbsent := out.map Prod.snd }

/-- Loop of the `derivative` case of src/expr.go: index 0 and absent
samples give absent output; elsewhere the output is the difference with
the previous non-absent sample (`prev` starts at `Values[0]`). -/
def derivGo : Bool → F → List (F × Bool) → List (F × Bool)
  | _, _, [] => []
  | first, prev, p :: rest =>
      if first || p.2 then (.fin 0, true) :: derivGo false prev rest
      else (F.sub p.1 prev, false) :: derivGo false p.1 rest

/-- Body of the `derivative` case of src/expr.go.  On an empty series the
Go code panics reading `Values[0]`; the model passes NaN, which is never
used there. -/
def derivativeFn (a r : MetricData) : MetricData :=
  let out := derivGo true (a.values.headD F.nan) (zipPad a.values a.isAbsent)
  { r with values := out.map Prod.fst, isAbsent := out.map Prod.snd }

/-- Body of the `divideSeries` case of src/expr.go after both argument
lists are evaluated: fails closed unless each list has exactly one series
and steps and lengths agree; pointwise division with absent or zero
denominator giving an absent point. -/
def divideSeriesImpl (argString : String)
    (numerator denominator : List (Option MetricData)) : List (Option MetricData) :=
  if numerator.length ≠ 1 ∨ denominator.length ≠ 1 then []
  else
    let n0 := derefMD (numerator.headD none)
    let d0 := derefMD (denominator.headD none)
    if n0.stepTime ≠ d0.stepTime ∨ n0.values.length ≠ d0.values.length then []
    else
      let pairs := (List.range n0.values.length).map (fun i =>
        if bidx n0.isAbsent i || bidx d0.isAbsent i || F.beq (fidx d0.values i) (.fin 0)
        then ((.fin 0 : F), true)
        else (F.div (fidx n0.values i) (fidx d0.values i), false))
      [some { n0 with
              name := ("divideSeries(" ++ argString ++ ")"),
              values := pairs.map Prod.fst, isAbsent := pairs.map Prod.snd }]

/-- Position of the first capital `A` or `B` in a filter target name
(Go `strings.IndexAny(e.target, "AB")`; the no-match value `-1` cannot
occur for the eight dispatch labels that reach this code). -/
def idxAB (s : String) : Nat := s.toList.findIdx (fun c => c == 'A' || c == 'B')

/-- Body of the `averageAbove`-family case of src/expr.go: split the
target at the first `A`/`B`, pick the reducer from the prefix
(`maximum`/`minimum` also switch to strict comparison), and keep the
series passing the comparison with `n`.  `*Below` always compares with
`<=`.  For a prefix other than the four reducer names the Go code would
call a nil function; the model uses a constant-NaN reducer there
(unreachable from the dispatch labels). -/
def aboveBelowImpl (target : String) (args : List (Option MetricData)) (n : F) :
    List (Option MetricData) :=
  let i := idxAB target
  let prefixPart := String.mk (target.toList.take i)
  let suffixPart := String.mk (target.toList.drop i)
  let isAbove := suffixPart == "Above"
  let pc : (List F → List Bool → F) × Bool :=
    match prefixPart with
    | "average" => (avgValue, true)
    | "current" => (currentValue, true)
    | "maximum" => (maxValue, false)
    | "minimum" => (minValue, false)
    | _ => (fun _ _ => F.nan, true)
  args.filter (fun ao =>
    let a := derefMD ao
    let value := pc.1 a.values a.isAbsent
    if isAbove then (if pc.2 then F.bge value n else F.bgt value n)
    else F.ble value n)

/-- Model of Go type `Windowed` (src/expr.go): a circular buffer with
running sum, sum of squares, and NaN count. -/
structure Windowed where
  data : List F
  head : Nat
  length : Nat
  sum : F
  sumsq : F
  nans : Int
deriving DecidableEq, Repr

/-- Model of `(*Windowed).Push` (src/expr.go).  Reading `data[head]` on an
empty buffer (window size 0) panics in Go; the model reads NaN. -/
def Windowed.push (w : Windowed) (n : F) : Windowed :=
  let old := (w.data.get? w.head).getD F.nan
  let data1 := w.data.set w.head n
  let head1 := if w.head + 1 ≥ w.data.length then 0 else w.head + 1
  let sum1 := if old.isNaN then w.sum else F.sub w.sum old
  let sumsq1 := if old.isNaN then w.sumsq else F.sub w.sumsq (F.mul old old)
  let nans1 := if old.isNaN then w.nans - 1 else w.nans
  let sum2 := if n.isNaN then sum1 else F.add sum1 n
  let sumsq2 := if n.isNaN then sumsq1 else F.add sumsq1 (F.mul n n)
  let nans2 := if n.isNaN then nans1 + 1 else nans1
  ⟨data1, head1, w.length + 1, sum2, sumsq2, nans2⟩

/-- Model of `(*Windowed).Len` (src/expr.go): number of non-NaN samples
currently in the window. -/
def Windowed.len (w : Windowed) : Int :=
  if w.length < w.data.length then (w.length : Int) - w.nans
  else (w.data.length : Int) - w.nans

/-- Model of `(*Windowed).Mean` (src/expr.go): `sum / float64(Len())`,
NaN on an empty window. -/
def Windowed.mean (w : Windowed) : F := F.div w.sum (.fin (w.len : ℚ))

/-- Model of Go struct `metricHeapElement` (src/expr.go). -/
structure MHE where
  idx : Nat
  val : F
deriving DecidableEq, Repr

/-- Default element returned for an out-of-range heap index (where Go
would panic). -/
def mheD : MHE := ⟨0, F.nan⟩

/-- The `metricHeap.Less` method of src/expr.go lifted to positions:
compare the `val` fields with IEEE `<`. -/
def mheLess (l : List MHE) (i j : Nat) : Bool :=
  F.blt ((l.get? i).getD mheD).val ((l.get? j).getD mheD).val

/-- The `metricHeap.Swap` method of src/expr.go. -/
def mheSwap (l : List MHE) (i j : Nat) : List MHE :=
  let xi := (l.get? i).getD mheD
  let xj := (l.get? j).getD mheD
  (l.set i xj).set j xi

/-- Fuelled sift-up, modelling `up` of Go package container/heap; `j`
strictly decreases, so fuel `j + 1` runs the loop to completion. -/
def heapUpF : Nat → List MHE → Nat → List MHE
  | 0, l, _ => l
  | fuel + 1, l, j =>
      if j = 0 then l
      else
        let i := (j - 1) / 2
        if !mheLess l j i then l
        else heapUpF fuel (mheSwap l i j) i

/-- Sift-up from position `j` (`up` of container/heap; at `j = 0` Go
computes parent `(0-1)/2 = 0` and stops on `i == j`). -/
def heapUp (l : List MHE) (j : Nat) : List MHE := heapUpF (j + 1) l j

/-- Fuelled sift-down, modelling `down` of Go package container/heap;
the position strictly increases below `n`, so fuel `n` suffices.  Returns
the final list and the final position. -/
def heapDownF : Nat → List MHE → Nat → Nat → List MHE × Nat
  | 0, l, i, _ => (l, i)
  | fuel + 1, l, i, n =>
      let j1 := 2 * i + 1
      if j1 ≥ n then (l, i)
      else
        let j := if j1 + 1 < n && mheLess l (j1 + 1) j1 then j1 + 1 else j1
        if !mheLess l j i then (l, i)
        else heapDownF fuel (mheSwap l i j) j n

/-- Sift-down from `i0` within the first `n` positions (`down` of
container/heap); the boolean reports whether the element moved. -/
def heapDown (l : List MHE) (i0 n : Nat) : List MHE × Bool :=
  let p := heapDownF n l i0 n
  (p.1, decide (p.2 > i0))

/-- Model of `heap.Push` for `metricHeap`: append, then sift up from the
last position. -/
def heapPush (l : List MHE) (x : MHE) : List MHE :=
  heapUp (l ++ [x]) l.length

/-- Model of `heap.Fix` at position `i`: sift down, and if the element did
not move, sift up. -/
def heapFix (l : List MHE) (i : Nat) : List MHE :=
  let p := heapDown l i l.length
  if p.2 then p.1 else heapUp p.1 i

/-- Model of `heap.Pop` for `metricHeap`: swap the root with the last
element, sift down within the shortened range, remove and return the last
element (the minimum).  Popping an empty heap panics in Go; the model
returns the default element. -/
def heapPop (l : List MHE) : MHE × List MHE :=
  let n := l.length - 1
  let l1 := mheSwap l 0 n
  let l2 := (heapDown l1 0 n).1
  ((l2.get? n).getD mheD, l2.take n)

/-- The reducer selected by the `highestAverage`/`highestCurrent`/
`highestMax` case of src/expr.go (any other target would call a nil
function in Go; unreachable from the dispatch labels). -/
def highestCompute (target : String) : List F → List Bool → F :=
  match target with
  | "highestMax" => maxValue
  | "highestAverage" => avgValue
  | "highestCurrent" => currentValue
  | _ => fun _ _ => F.nan

/-- Collection loop of the `highest*` case of src/expr.go: push each
series with non-NaN reduced value, keeping only the top `n` in a min-heap
(replace the root when full and a larger value arrives). -/
def highestCollect (target : String) (arg : List (Option MetricData)) (n : Int) :
    List MHE :=
  arg.enum.foldl
    (fun mh p =>
      let a := derefMD p.2
      let m := highestCompute target a.values a.isAbsent
      if m.isNaN then mh
      else if (mh.length : Int) < n then heapPush mh ⟨p.1, m⟩
      else if F.blt ((mh.get? 0).getD mheD).val m then
        heapFix (mh.set 0 ⟨p.1, m⟩) 0
      else mh)
    []

/-- Drain loop of the `highest*` case of src/expr.go: repeatedly pop the
minimum and store `arg[idx]` at index `len(mh)` (evaluated after the
pop); fuel `mh.length` runs the loop to completion. -/
def heapDrainF : Nat → List MHE → List (Option MetricData) →
    List (Option (Option MetricData)) → List (Option (Option MetricData))
  | 0, _, _, results => results
  | fuel + 1, mh, arg, results =>
      if mh.length = 0 then results
      else
        let p := heapPop mh
        heapDrainF fuel p.2 arg (results.set p.2.length (some (arg.getD p.1.idx none)))

/-- Body of the `highestAverage`/`highestCurrent`/`highestMax` case of
src/expr.go.  The result slice is preallocated with `n` nil slots (the
outer `Option` layer: `none` is a Go nil `*metricData` that was never
assigned); when fewer than `n` heap entries exist, the unassigned slots
remain nil. -/
def highestImpl (target : String) (arg : List (Option MetricData)) (n : Int) :
    List (Option MetricData) :=
  if (arg.length : Int) < n then arg
  else
    let mh := highestCollect target arg n
    (heapDrainF mh.length mh arg (List.replicate n.toNat none)).map (fun o => o.getD none)

/-- Loop of the `movingAverage` case of src/expr.go: record the mean of
the window *before* pushing the sample (absent samples push NaN); output
is absent while `i < windowSize` or when the mean is NaN. -/
def maGo : Windowed → Nat → Int → List (F × Bool) → List (F × Bool)
  | _, _, _, [] => []
  | w, i, windowSize, p :: rest =>
      let v := if p.2 then F.nan else p.1
      let rv := w.mean
      let out := if (i : Int) < windowSize || rv.isNaN then ((.fin 0 : F), true) else (rv, false)
      out :: maGo (w.push v) (i + 1) windowSize rest

/-- Body of the `movingAverage` case of src/expr.go after the window size
is resolved: a fresh `Windowed` buffer per input series (a negative size
would make Go panic at `make`; the model allocates an empty buffer). -/
def movingAverageImpl (arg : List (Option MetricData)) (windowSize : Int)
    (reqFrom reqUntil : Int) : List (Option MetricData) :=
  arg.map (fun ao =>
    let a := derefMD ao
    let out := maGo ⟨List.replicate windowSize.toNat (.fin 0), 0, 0, .fin 0, .fin 0, 0⟩
      0 windowSize (zipPad a.values a.isAbsent)
    some { a with
           name := ("movingAverage(" ++ a.name ++ "," ++ toString windowSize ++ ")"),
           values := out.map Prod.fst,
           isAbsent := out.map Prod.snd,
           startTime := reqFrom,
           stopTime := reqUntil })

/-- The caller-owned map from fetch request to fetched series
(`map[metricRequest][]*metricData` in Go; a missing key gives the empty
list, entries are non-nil). -/
def Values : Type := MetricRequest → List MetricData

/-- The checks of Go `getSeriesArg` (src/expr.go) applied to an already
evaluated argument: a const or string argument, or an empty evaluation
result, is `ErrMissingTimeseries`. -/
def getSeriesFrom (a : Expr) (res : List (Option MetricData)) :
    Except Err (List (Option MetricData)) :=
  if a.etype ≠ .etName ∧ a.etype ≠ .etFunc then .error .missingTimeseries
  else if res.isEmpty then .error .missingTimeseries
  else .ok res

/-- Continuation of the `forEachSeriesDo` cases after the argument is
evaluated: an argument error yields the empty list. -/
def forEachFrom (target : String) (res : Except Err (List (Option MetricData)))
    (f : MetricData → MetricData → MetricData) : List (Option MetricData) :=
  match res with
  | .error _ => []
  | .ok arg => forEachSeriesDo target arg f

/-- Continuation of the `alias` case after the argument is evaluated:
copy the first series and replace its name. -/
def aliasFrom (res : Except Err (List (Option MetricData)))
    (nameArg : Except Err String) : List (Option MetricData) :=
  match res with
  | .error _ => []
  | .ok arg =>
      match nameArg with
      | .error _ => []
      | .ok newName => [some { derefMD (arg.headD none) with name := newName }]

/-- Continuation of the multi-series reduction cases
(`sum`/`avg`/`maxSeries`/`minSeries`): the emptiness check of Go
`getSeriesArgs`, then `aggregateSeries`. -/
def aggregateFrom (target argString : String)
    (res : Except Err (List (Option MetricData))) (f : List F → F) :
    List (Option MetricData) :=
  match res with
  | .error _ => []
  | .ok l => if l.isEmpty then [] else aggregateSeries target argString l f

/-- Continuation of the `averageAbove`-family case after the argument and
the threshold are evaluated. -/
def aboveBelowFrom (target : String) (res : Except Err (List (Option MetricData)))
    (nArg : Except Err F) : List (Option MetricData) :=
  match res with
  | .error _ => []
  | .ok arg =>
      match nArg with
      | .error _ => []
      | .ok n => aboveBelowImpl target arg n

/-- Continuation of the `highest*` case after the argument and the count
are evaluated. -/
def highestFrom (target : String) (res : Except Err (List (Option MetricData)))
    (nArg : Except Err Int) : List (Option MetricData) :=
  match res with
  | .error _ => []
  | .ok arg =>
      match nArg with
      | .error _ => []
      | .ok n => highestImpl target arg n

/-- Continuation of the `divideSeries` case after both arguments are
evaluated. -/
def divideFrom (argString : String)
    (res0 res1 : Except Err (List (Option MetricData))) : List (Option MetricData) :=
  match res0 with
  | .error _ => []
  | .ok numerator =>
      match res1 with
      | .error _ => []
      | .ok denominator => divideSeriesImpl argString numerator denominator

/-- Continuation of the `movingAverage` case: window-size argument
(sample count, or interval divided by the step of the first series), then
the moving-average body. -/
def movingAverageFrom (res : Except Err (List (Option MetricData)))
    (nArg : Except Err (Int × Bool)) (reqFrom reqUntil : Int) :
    List (Option MetricData) :=
  match nArg with
  | .error _ => []
  | .ok p =>
      match res with
      | .error _ => []
      | .ok arg =>
          let windowSize :=
            if p.2 then p.1.tdiv (derefMD (arg.headD none)).stepTime else p.1
          movingAverageImpl arg windowSize reqFrom reqUntil

/-- The final emptiness check of Go `getSeriesArgs` (src/expr.go). -/
def seriesArgsCheck (res : Except Err (List (Option MetricData))) :
    Except Err (List (Option MetricData)) :=
  match res with
  | .error err => .error err
  | .ok l => if l.isEmpty then .error .missingTimeseries else .ok l


/-- The per-target dispatch of Go `evalExpr` (src/expr.go) with the
recursive argument evaluations hoisted out: `r0` and `r1` are the
evaluations of `args[0]` and `args[1]`, `rAll` is the `getSeriesArgs`
concatenation over all arguments (evaluation is pure, so hoisting
preserves the per-case behaviour of the source).  Dispatch labels not
needed by any claim are not modelled and return the empty list, as does
an unknown target (`knownTargets` lists the full label set of the
source). -/
def dispatchF (target argString : String) (args : ExprList)
    (r0 r1 : List (Option MetricData)) (rAll : Except Err (List (Option MetricData)))
    (reqFrom reqUntil : Int) : List (Option MetricData) :=
  match target with
  | "absolute" =>
      match args with
      | .cons a0 _ => forEachFrom target (getSeriesFrom a0 r0) absoluteFn
      | .nil => []
  | "alias" =>
      match args with
      | .cons a0 _ => aliasFrom (getSeriesFrom a0 r0) (getStringArgL args 1)
      | .nil => []
  | "avg" | "averageSeries" =>
      aggregateFrom "averageSeries" argString (seriesArgsCheck rAll) avgAgg
  | "averageAbove" | "averageBelow" | "currentAbove" | "currentBelow"
  | "maximumAbove" | "maximumBelow" | "minimumAbove" | "minimumBelow" =>
      match args with
      | .cons a0 _ =>
          aboveBelowFrom target (getSeriesFrom a0 r0) (getFloatArgL args 1)
      | .nil => []
  | "derivative" =>
      match args with
      | .cons a0 _ => forEachFrom target (getSeriesFrom a0 r0) derivativeFn
      | .nil => []
  | "divideSeries" =>
      match args with
      | .cons a0 (.cons a1 .nil) =>
          divideFrom argString (getSeriesFrom a0 r0) (getSeriesFrom a1 r1)
      | _ => []
  | "highestAverage" | "highestCurrent" | "highestMax" =>
      match args with
      | .cons a0 _ =>
          highestFrom target (getSeriesFrom a0 r0) (getIntArgL args 1)
      | .nil => []
  | "integral" =>
      match args with
      | .cons a0 _ => forEachFrom target (getSeriesFrom a0 r0) integralFn
      | .nil => []
  | "isNonNull" | "isNotNull" =>
      match args with
      | .cons a0 _ => forEachFrom "isNonNull" (getSeriesFrom a0 r0) isNonNullFn
      | .nil => []
  | "maxSeries" =>
      aggregateFrom "maxSeries" argString (seriesArgsCheck rAll) maxAgg
  | "minSeries" =>
      aggregateFrom "minSeries" argString (seriesArgsCheck rAll) minAgg
  | "movingAverage" =>
      match args with
      | .cons a0 (.cons a1 _) =>
          movingAverageFrom (getSeriesFrom a0 r0)
            (match a1.etype with
             | .etConst => .ok (a1.val.toInt, false)
             | .etString =>
                 match getIntervalArgL args 1 1 with
                 | .error err => .error err
                 | .ok n32 => .ok (n32, true)
             | _ => .error .badType)
            reqFrom reqUntil
      | _ => []
  | "sum" | "sumSeries" =>
      aggregateFrom "sumSeries" argString (seriesArgsCheck rAll) sumAgg
  | _ => []

mutual
/-- Model of Go `evalExpr` (src/expr.go).  A `Name` looks up
`values[{target, from, until}]`; a `Const` is a degenerate one-point
series; everything else (including a `String`, which falls through the Go
type switch) returns the empty list when the argument list is empty and
otherwise dispatches on the target. -/
def evalExpr : Expr → Int → Int → Values → List (Option MetricData)
  | .mk target etype val _ args argString, reqFrom, reqUntil, values =>
    match etype with
    | .etName => (values ⟨target, reqFrom, reqUntil⟩).map some
    | .etConst => [some ⟨target, 0, 0, 0, [val], [], "", false, false, false⟩]
    | .etString | .etFunc =>
        if args.length = 0 then []
        else
          dispatchF target argString args
            (match args with
             | .cons a0 _ => evalExpr a0 reqFrom reqUntil values
             | .nil => [])
            (match args with
             | .cons _ (.cons a1 _) => evalExpr a1 reqFrom reqUntil values
             | _ => [])
            (evalSeriesList args reqFrom reqUntil values)
            reqFrom reqUntil

/-- The concatenation loop of Go `getSeriesArgs` (src/expr.go); the final
emptiness check is `seriesArgsCheck`. -/
def evalSeriesList : ExprList → Int → Int → Values →
    Except Err (List (Option MetricData))
  | .nil, _, _, _ => .ok []
  | .cons a rest, reqFrom, reqUntil, values =>
      match getSeriesFrom a (evalExpr a reqFrom reqUntil values) with
      | .error err => .error err
      | .ok l =>
          match evalSeriesList rest reqFrom reqUntil values with
          | .error err => .error err
          | .ok ls => .ok (l ++ ls)
end

/-- Model of Go `getSeriesArg` (src/expr.go). -/
def getSeriesArg (arg : Expr) (reqFrom reqUntil : Int) (values : Values) :
    Except Err (List (Option MetricData)) :=
  getSeriesFrom arg (evalExpr arg reqFrom reqUntil values)

/-- Model of Go `getSeriesArgs` (src/expr.go): concatenate the series of
every argument; an empty total is `ErrMissingTimeseries`. -/
def getSeriesArgs (args : ExprList) (reqFrom reqUntil : Int) (values : Values) :
    Except Err (List (Option MetricData)) :=
  seriesArgsCheck (evalSeriesList args reqFrom reqUntil values)

/-- The complete set of dispatch labels of the Go `evalExpr` switch
(src/expr.go); any other function target falls through to the
logging/empty-return path. -/
def knownTargets : List String :=
  ["absolute", "alias", "aliasByMetric", "aliasByNode", "aliasSub", "asPercent",
   "avg", "averageSeries", "averageSeriesWithWildcards",
   "averageAbove", "averageBelow", "currentAbove", "currentBelow",
   "maximumAbove", "maximumBelow", "minimumAbove", "minimumBelow",
   "checkLess", "checkLessEqual", "checkGreater", "checkGreaterEqual", "checkEqual",
   "checkVariance", "severity", "failureThreshold", "derivative", "diffSeries",
   "divideSeries", "multiplySeries", "ensure", "exclude", "grep", "group",
   "groupByNode", "isNonNull", "isNotNull", "lowestAverage", "lowestCurrent",
   "highestAverage", "highestCurrent", "highestMax", "hitcount", "integral",
   "invert", "keepLastValue", "changed", "kolmogorovSmirnovTest2", "ksTest2",
   "limit", "logarithm", "log", "maxSeries", "minSeries", "mostDeviant",
   "movingAverage", "movingMedian", "nonNegativeDerivative", "perSecond",
   "nPercentile", "pearson", "pearsonClosest", "offset", "offsetToZero",
   "scale", "scaleToSeconds", "pow", "sortByMaxima", "sortByMinima",
   "sortByTotal", "sortByName", "stdev", "stddev", "sum", "sumSeries",
   "sumSeriesWithWildcards", "percentileOfSeries", "maxDataPoints",
   "summarize", "timeShift", "transformNull", "tukeyAbove", "color",
   "dashed", "drawAsInfinite", "secondYAxis", "constantLine",
   "holtWintersForecast", "squareRoot", "removeBelowValue", "removeAboveValue"]

deriving instance DecidableEq for Except

/-- Shorthand for a parsed metric-name leaf (the parser leaves the other
fields zeroed). -/
def nameE (s : String) : Expr := .mk s .etName (.fin 0) "" .nil ""

/-- Shorthand for a parsed numeric-constant leaf (the parser leaves
`target` empty). -/
def constE (q : ℚ) : Expr := .mk "" .etConst (.fin q) "" .nil ""

/-- Shorthand for a parsed string leaf. -/
def stringE (s : String) : Expr := .mk "" .etString (.fin 0) s .nil ""

/-- Build an `ExprList` from a Lean list. -/
def toExprList (l : List Expr) : ExprList := l.foldr .cons .nil

/-- One-point lookup table: the single metric `m` resolves to the series
list `l`, at any window. -/
def singleValues (m : String) (l : List MetricData) : Values :=
  fun r => if r.metric = m then l else []

/-- An `alias(x, s)` call expression. -/
def aliasCall (x : Expr) (s : String) : Expr :=
  .mk "alias" .etFunc (.fin 0) "" (.cons x (.cons (stringE s) .nil)) ""

/-- An `absolute(x)` call expression. -/
def absoluteCall (x : Expr) : Expr := .mk "absolute" .etFunc (.fin 0) "" (.cons x .nil) ""

/-- An `isNonNull(x)` call expression. -/
def isNonNullCall (x : Expr) : Expr := .mk "isNonNull" .etFunc (.fin 0) "" (.cons x .nil) ""

/-- Two-point lookup table: metric `m1` resolves to `l1`, metric `m2` to
`l2`, anything else to the empty list. -/
def pairValues (m1 : String) (l1 : List MetricData) (m2 : String) (l2 : List MetricData) :
    Values :=
  fun r => if r.metric = m1 then l1 else if r.metric = m2 then l2 else []

/-- A concrete numerator series: three samples, the last one absent. -/
def ndC3 : MetricData :=
  ⟨"n", 0, 3, 1, [.fin 6, .fin 4, .fin 1], [false, false, true], "", false, false, false⟩

/-- A concrete denominator series: three present samples, the middle one 0. -/
def ddC3 : MetricData :=
  ⟨"d", 0, 3, 1, [.fin 3, .fin 0, .fin 2], [false, false, false], "", false, false, false⟩

/-- The lookup table binding `n` to `ndC3` and `d` to `ddC3`. -/
def vC3 : Values := pairValues "n" [ndC3] "d" [ddC3]

/-- The call expression `divideSeries(n, d)`. -/
def divE : Expr :=
  .mk "divideSeries" .etFunc (.fin 0) "" (.cons (nameE "n") (.cons (nameE "d") .nil)) "n,d"

/-- A two-series lookup table under the single metric `m`. -/
def vC4 : Values := singleValues "m" [ndC3, ddC3]

/-- A concrete series with three present samples and one absent sample. -/
def xC6 : MetricData :=
  ⟨"m", 0, 4, 1, [.fin 1, .fin 5, .fin 2, .fin 4], [false, false, true, false],
   "", false, false, false⟩

/-- The lookup table binding `m` to `xC6`. -/
def vC6 : Values := singleValues "m" [xC6]

/-- A concrete series with a finite average. -/
def aC9 : MetricData :=
  ⟨"a", 0, 2, 1, [.fin 5, .fin 1], [false, false], "", false, false, false⟩

/-- A concrete series that is entirely absent, so its average is NaN. -/
def bC9 : MetricData :=
  ⟨"b", 0, 2, 1, [.fin 0, .fin 0], [true, true], "", false, false, false⟩

/-- The lookup table binding `m` to the pair `aC9`, `bC9`. -/
def vC9 : Values := singleValues "m" [aC9, bC9]

/-- The call expression `highestAverage(m, 2)`. -/
def highE : Expr :=
  .mk "highestAverage" .etFunc (.fin 0) ""
    (.cons (nameE "m") (.cons (constE 2) .nil)) ""

/-- The bridging lemma for `qadd`: it agrees with rational addition. -/
theorem qadd_eq (a b : ℚ) : qadd a b = a + b := by
  unfold qadd
  rw [Rat.mkRat_eq_div]
  have ha : ((a.den : ℚ)) ≠ 0 := by exact_mod_cast a.den_nz
  have hb : ((b.den : ℚ)) ≠ 0 := by exact_mod_cast b.den_nz
  conv_rhs => rw [← Rat.num_div_den a, ← Rat.num_div_den b]
  push_cast
  field_simp

/-- The bridging lemma for `qneg`: it agrees with rational negation. -/
theorem qneg_eq (a : ℚ) : qneg a = -a := by
  unfold qneg
  rw [Rat.mkRat_eq_div]
  have ha : ((a.den : ℚ)) ≠ 0 := by exact_mod_cast a.den_nz
  conv_rhs => rw [← Rat.num_div_den a]
  push_cast
  field_simp

/-- The bridging lemma for `qmul`: it agrees with rational
multiplication. -/
theorem qmul_eq (a b : ℚ) : qmul a b = a * b := by
  unfold qmul
  rw [Rat.mkRat_eq_div]
  have ha : ((a.den : ℚ)) ≠ 0 := by exact_mod_cast a.den_nz
  have hb : ((b.den : ℚ)) ≠ 0 := by exact_mod_cast b.den_nz
  conv_rhs => rw [← Rat.num_div_den a, ← Rat.num_div_den b]
  push_cast
  field_simp

/-- The bridging lemma for `qinv`: it agrees with rational inverse. -/
theorem qinv_eq (b : ℚ) : qinv b = b⁻¹ := by
  rw [Rat.inv_def']
  unfold qinv
  by_cases h : b.num < 0
  · rw [if_pos h, Rat.mkRat_eq_divInt]
    have hn : ((b.num.natAbs : Int)) = -b.num := by omega
    rw [hn]
    exact Rat.neg_divInt_neg _ _
  · rw [if_neg h, Rat.mkRat_eq_divInt]
    have hn : ((b.num.natAbs : Int)) = b.num := by omega
    rw [hn]

/-- The bridging lemma for `qdiv`: it agrees with rational division. -/
theorem qdiv_eq (a b : ℚ) : qdiv a b = a / b := by
  unfold qdiv
  rw [qmul_eq, qinv_eq, div_eq_mul_inv]

/-- The bridging lemma for `qabs`: it agrees with rational absolute
value. -/
theorem qabs_eq (a : ℚ) : qabs a = |a| := by
  unfold qabs
  by_cases h : 0 ≤ a.num
  · have hn : ((a.num.natAbs : Int)) = a.num := by omega
    rw [Rat.mkRat_eq_divInt, hn, Rat.num_divInt_den,
      abs_of_nonneg (Rat.num_nonneg.mp h)]
  · have hn : ((a.num.natAbs : Int)) = -a.num := by omega
    rw [Rat.mkRat_eq_divInt, hn, ← Rat.neg_divInt, Rat.num_divInt_den,
      abs_of_neg (by exact Rat.num_neg.mp (by omega))]

/-- Helper: an unknown dispatch target yields the empty list whatever the
argument evaluations were. -/
theorem dispatchF_unknown (t as : String) (args : ExprList)
    (r0 r1 : List (Option MetricData)) (rAll : Except Err (List (Option MetricData)))
    (reqFrom reqUntil : Int) (h : ¬ t ∈ knownTargets) :
    dispatchF t as args r0 r1 rAll reqFrom reqUntil = [] := by
  unfold dispatchF
  split
  all_goals first
    | rfl
    | exact absurd (by decide) h

/-- C1: the planner `metrics` emits one request `{metric: target, from: 0,
until: 0}` per `Name` leaf and nothing for `Const`/`String` leaves; a
`timeShift` function whose interval argument (index 1, default sign `-1`)
parses to `offs` adds `offs` to both `from` and `until` of every request
collected from its argument subtree; `holtWintersForecast` subtracts
`7*86400` seconds from every collected `from` (leaving `until`
unchanged); every other function target passes the collected requests
through unchanged.  Arithmetic is Go `int32` (`i32`). -/
theorem planner_requests_C1 :
    (∀ (t : String) (v : F) (vs : String) (args : ExprList) (a : String),
        metrics (.mk t .etName v vs args a) = [⟨t, 0, 0⟩])
  ∧ (∀ (t : String) (v : F) (vs : String) (args : ExprList) (a : String),
        metrics (.mk t .etConst v vs args a) = []
        ∧ metrics (.mk t .etString v vs args a) = [])
  ∧ (∀ (v : F) (vs : String) (args : ExprList) (a : String) (offs : Int),
        getIntervalArgL args 1 (-1) = .ok offs →
        metrics (.mk "timeShift" .etFunc v vs args a)
          = (metricsList args).map
              (fun q => ⟨q.metric, i32 (q.reqFrom + offs), i32 (q.reqUntil + offs)⟩))
  ∧ (∀ (v : F) (vs : String) (args : ExprList) (a : String),
        metrics (.mk "holtWintersForecast" .etFunc v vs args a)
          = (metricsList args).map
              (fun q => ⟨q.metric, i32 (q.reqFrom - 7 * 86400), q.reqUntil⟩))
  ∧ (∀ (t : String) (v : F) (vs : String) (args : ExprList) (a : String),
        t ≠ "timeShift" → t ≠ "holtWintersForecast" →
        metrics (.mk t .etFunc v vs args a) = metricsList args) := by
  refine ⟨fun t v vs args a => rfl, fun t v vs args a => ⟨rfl, rfl⟩, ?_,
    fun v vs args a => rfl, ?_⟩
  · intro v vs args a offs h
    have e1 : metrics (.mk "timeShift" .etFunc v vs args a)
        = funcRewrites "timeShift" args (metricsList args) := rfl
    rw [e1]
    unfold funcRewrites
    rw [h]
    rfl
  · intro t v vs args a h1 h2
    have e1 : metrics (.mk t .etFunc v vs args a)
        = funcRewrites t args (metricsList args) := rfl
    rw [e1]
    unfold funcRewrites
    split
    · exact absurd rfl h1
    · exact absurd rfl h2
    · rfl

/-- Witness for C1 at concrete inputs: a bare name, a time shift by
`"-1h"` (which parses to `-3600`), a forecast, and an untimed function. -/
theorem planner_requests_C1_witness :
    (getIntervalArgL (toExprList [nameE "foo", stringE "-1h"]) 1 (-1) = .ok (-3600))
  ∧ metrics (.mk "timeShift" .etFunc (.fin 0) ""
      (toExprList [nameE "foo", stringE "-1h"]) "") = [⟨"foo", -3600, -3600⟩]
  ∧ metrics (nameE "foo") = [⟨"foo", 0, 0⟩]
  ∧ metrics (.mk "holtWintersForecast" .etFunc (.fin 0) ""
      (toExprList [nameE "foo"]) "") = [⟨"foo", -604800, 0⟩]
  ∧ metrics (.mk "sumSeries" .etFunc (.fin 0) ""
      (toExprList [nameE "foo"]) "") = [⟨"foo", 0, 0⟩] := by
  refine ⟨by decide, ?_, planner_requests_C1.1 "foo" _ "" .nil "", ?_, ?_⟩
  · exact (planner_requests_C1.2.2.1 _ "" _ "" (-3600) (by decide)).trans (by decide)
  · exact (planner_requests_C1.2.2.2.1 _ "" _ "").trans (by decide)
  · exact (planner_requests_C1.2.2.2.2 "sumSeries" _ "" _ ""
      (by decide) (by decide)).trans (by decide)

/-- C10: when the interval argument of a `timeShift` expression is
missing or unparsable, the planner returns the empty request list for the
whole subtree, discarding the requests collected from the arguments. -/
theorem planner_timeshift_error_C10 :
    ∀ (v : F) (vs : String) (args : ExprList) (a : String) (err : Err),
      getIntervalArgL args 1 (-1) = .error err →
      metrics (.mk "timeShift" .etFunc v vs args a) = [] := by
  intro v vs args a err h
  have e1 : metrics (.mk "timeShift" .etFunc v vs args a)
      = funcRewrites "timeShift" args (metricsList args) := rfl
  rw [e1]
  unfold funcRewrites
  rw [h]
  rfl

/-- Witness for C10: `timeShift(foo)` with no interval argument; the
subtree collects the request for `foo`, yet the planner returns the empty
list. -/
theorem planner_timeshift_error_C10_witness :
    (getIntervalArgL (toExprList [nameE "foo"]) 1 (-1) = .error .missingArgument)
  ∧ metricsList (toExprList [nameE "foo"]) = [⟨"foo", 0, 0⟩]
  ∧ metrics (.mk "timeShift" .etFunc (.fin 0) "" (toExprList [nameE "foo"]) "") = [] :=
  ⟨by decide, by decide,
   planner_timeshift_error_C10 _ "" _ "" .missingArgument (by decide)⟩

/-- C8: evaluating any `Func` expression with zero arguments returns the
empty series list, and evaluating a `Func` expression whose target is not
one of the known dispatch labels (`knownTargets`) returns the empty
series list. -/
theorem eval_empty_args_unknown_C8 :
    (∀ (e : Expr) (reqFrom reqUntil : Int) (V : Values),
        e.etype = .etFunc → e.args.length = 0 →
        evalExpr e reqFrom reqUntil V = [])
  ∧ (∀ (e : Expr) (reqFrom reqUntil : Int) (V : Values),
        e.etype = .etFunc → ¬ e.target ∈ knownTargets →
        evalExpr e reqFrom reqUntil V = []) := by
  constructor
  · intro e reqFrom reqUntil V h1 h2
    obtain ⟨t, et, v, vs, args, a⟩ := e
    simp only [Expr.etype] at h1
    subst h1
    cases args with
    | nil => rfl
    | cons a0 rest => simp [ExprList.length] at h2
  · intro e reqFrom reqUntil V h1 h2
    obtain ⟨t, et, v, vs, args, a⟩ := e
    simp only [Expr.etype] at h1
    subst h1
    simp only [Expr.target] at h2
    cases args with
    | nil => rfl
    | cons a0 rest =>
        cases rest with
        | nil =>
            have e1 : evalExpr (.mk t .etFunc v vs (.cons a0 .nil) a) reqFrom reqUntil V
                = dispatchF t a (.cons a0 .nil) (evalExpr a0 reqFrom reqUntil V) []
                    (evalSeriesList (.cons a0 .nil) reqFrom reqUntil V) reqFrom reqUntil := rfl
            rw [e1]
            exact dispatchF_unknown t a _ _ _ _ reqFrom reqUntil h2
        | cons a1 rest2 =>
            have e1 : evalExpr (.mk t .etFunc v vs (.cons a0 (.cons a1 rest2)) a)
                  reqFrom reqUntil V
                = dispatchF t a (.cons a0 (.cons a1 rest2))
                    (evalExpr a0 reqFrom reqUntil V) (evalExpr a1 reqFrom reqUntil V)
                    (evalSeriesList (.cons a0 (.cons a1 rest2)) reqFrom reqUntil V)
                    reqFrom reqUntil := rfl
            rw [e1]
            exact dispatchF_unknown t a _ _ _ _ reqFrom reqUntil h2

/-- Witness for C8: a known function with zero arguments and an unknown
function with one argument both evaluate to the empty list. -/
theorem eval_empty_args_unknown_C8_witness :
    ((Expr.mk "sumSeries" .etFunc (.fin 0) "" .nil "").etype = .etFunc)
  ∧ ((Expr.mk "sumSeries" .etFunc (.fin 0) "" .nil "").args.length = 0)
  ∧ evalExpr (.mk "sumSeries" .etFunc (.fin 0) "" .nil "") 0 0
      (singleValues "foo" []) = []
  ∧ ((Expr.mk "bogusFunction" .etFunc (.fin 0) ""
        (toExprList [nameE "foo"]) "").etype = .etFunc)
  ∧ (¬ (Expr.mk "bogusFunction" .etFunc (.fin 0) ""
        (toExprList [nameE "foo"]) "").target ∈ knownTargets)
  ∧ evalExpr (.mk "bogusFunction" .etFunc (.fin 0) ""
      (toExprList [nameE "foo"]) "") 0 0 (singleValues "foo" []) = [] :=
  ⟨rfl, rfl,
   eval_empty_args_unknown_C8.1 _ 0 0 _ rfl rfl,
   rfl, by decide,
   eval_empty_args_unknown_C8.2 _ 0 0 _ rfl (by decide)⟩
theorem zipPad_length (vs : List F) (ab : List Bool) : (zipPad vs ab).length = vs.length := by
  induction vs generalizing ab with
  | nil => simp [zipPad]
  | cons v vt ih =>
      cases ab with
      | nil => simp [zipPad, ih]
      | cons b bt => simp [zipPad, ih]

theorem zipPad_map {α : Type} (l : List α) (f : α → F) (g : α → Bool) :
    zipPad (l.map f) (l.map g) = l.map (fun x => (f x, g x)) := by
  induction l with
  | nil => rfl
  | cons x xt ih => simp [zipPad, ih]

theorem zipPad_replicate_false (l : List F) (n : Nat) (h : n = l.length) :
    zipPad l (List.replicate n false) = l.map (fun v => (v, false)) := by
  subst h
  induction l with
  | nil => rfl
  | cons x xt ih => simp [zipPad, List.replicate, ih]

theorem fabs_fabs (x : F) : F.fabs (F.fabs x) = F.fabs x := by
  cases x with
  | nan => rfl
  | inf p => rfl
  | fin q =>
      show F.fin (qabs (qabs q)) = F.fin (qabs q)
      rw [qabs_eq (qabs q), qabs_eq q, abs_abs]

theorem eval_alias_idem (X : Expr) (s : String) (reqFrom reqUntil : Int) (V : Values) :
    evalExpr (aliasCall (aliasCall X s) s) reqFrom reqUntil V
      = evalExpr (aliasCall X s) reqFrom reqUntil V := by
  have e1 : evalExpr (aliasCall X s) reqFrom reqUntil V
      = aliasFrom (getSeriesFrom X (evalExpr X reqFrom reqUntil V)) (.ok s) := rfl
  have e2 : evalExpr (aliasCall (aliasCall X s) s) reqFrom reqUntil V
      = aliasFrom (getSeriesFrom (aliasCall X s)
          (evalExpr (aliasCall X s) reqFrom reqUntil V)) (.ok s) := rfl
  rw [e1, e2]
  cases h : getSeriesFrom X (evalExpr X reqFrom reqUntil V) with
  | error err => rw [e1, h]; rfl
  | ok l =>
      rw [e1, h]
      show aliasFrom (getSeriesFrom (aliasCall X s)
        [some { derefMD (l.headD none) with name := s }]) (.ok s)
        = [some { derefMD (l.headD none) with name := s }]
      rfl

theorem getSeriesFrom_ok_ne {a : Expr} {res l : List (Option MetricData)}
    (h : getSeriesFrom a res = .ok l) : l ≠ [] := by
  unfold getSeriesFrom at h
  by_cases h1 : (a.etype ≠ .etName ∧ a.etype ≠ .etFunc)
  · rw [if_pos h1] at h
    cases h
  · rw [if_neg h1] at h
    by_cases h2 : res.isEmpty
    · rw [if_pos h2] at h
      cases h
    · rw [if_neg h2] at h
      have h3 : res = l := by injection h
      subst h3
      simpa using h2

theorem absoluteFn_pointwise (a r1 r2 r3 : MetricData) :
    ((absoluteFn (absoluteFn a r1) r2).values, (absoluteFn (absoluteFn a r1) r2).isAbsent)
      = ((absoluteFn a r3).values, (absoluteFn a r3).isAbsent) := by
  have hv : ∀ r : MetricData, (absoluteFn a r).values
      = (zipPad a.values a.isAbsent).map (fun p => if p.2 then F.fin 0 else F.fabs p.1) :=
    fun r => rfl
  have hb : ∀ r : MetricData, (absoluteFn a r).isAbsent
      = (zipPad a.values a.isAbsent).map (fun p => p.2) := fun r => rfl
  have hz : zipPad (absoluteFn a r1).values (absoluteFn a r1).isAbsent
      = (zipPad a.values a.isAbsent).map
          (fun p => ((if p.2 then F.fin 0 else F.fabs p.1), p.2)) := by
    rw [hv r1, hb r1, zipPad_map]
  have g1 : (absoluteFn (absoluteFn a r1) r2).values = (absoluteFn a r3).values := by
    show (zipPad (absoluteFn a r1).values (absoluteFn a r1).isAbsent).map _ = _
    rw [hz, hv r3, List.map_map]
    apply List.map_congr_left
    intro p _
    by_cases h2 : p.2 <;> simp [h2, fabs_fabs]
  have g2 : (absoluteFn (absoluteFn a r1) r2).isAbsent = (absoluteFn a r3).isAbsent := by
    show (zipPad (absoluteFn a r1).values (absoluteFn a r1).isAbsent).map _ = _
    rw [hz, hb r3, List.map_map]
    apply List.map_congr_left
    intro p _
    rfl
  rw [g1, g2]

theorem eval_absolute_idem (X : Expr) (reqFrom reqUntil : Int) (V : Values) :
    (evalExpr (absoluteCall (absoluteCall X)) reqFrom reqUntil V).map
        (fun o => ((derefMD o).values, (derefMD o).isAbsent))
      = (evalExpr (absoluteCall X) reqFrom reqUntil V).map
        (fun o => ((derefMD o).values, (derefMD o).isAbsent))
    ∧ (evalExpr (absoluteCall (absoluteCall X)) reqFrom reqUntil V).map
        (fun o => (derefMD o).name)
      = (evalExpr (absoluteCall X) reqFrom reqUntil V).map
        (fun o => ("absolute(" ++ (derefMD o).name ++ ")")) := by
  have e1 : evalExpr (absoluteCall X) reqFrom reqUntil V
      = forEachFrom "absolute" (getSeriesFrom X (evalExpr X reqFrom reqUntil V)) absoluteFn := rfl
  have e2 : evalExpr (absoluteCall (absoluteCall X)) reqFrom reqUntil V
      = forEachFrom "absolute" (getSeriesFrom (absoluteCall X)
          (evalExpr (absoluteCall X) reqFrom reqUntil V)) absoluteFn := rfl
  rw [e1, e2, e1]
  cases h : getSeriesFrom X (evalExpr X reqFrom reqUntil V) with
  | error err => exact ⟨rfl, rfl⟩
  | ok l =>
      have hne := getSeriesFrom_ok_ne h
      cases l with
      | nil => exact absurd rfl hne
      | cons a0 rest =>
          constructor
          · show (((a0 :: rest).map (fun ao =>
                some (absoluteFn (derefMD ao) (freshCopy "absolute" (derefMD ao))))).map
                  (fun bo => some (absoluteFn (derefMD bo) (freshCopy "absolute" (derefMD bo))))).map
                  (fun o => ((derefMD o).values, (derefMD o).isAbsent))
              = ((a0 :: rest).map (fun ao =>
                  some (absoluteFn (derefMD ao) (freshCopy "absolute" (derefMD ao))))).map
                  (fun o => ((derefMD o).values, (derefMD o).isAbsent))
            rw [List.map_map, List.map_map, List.map_map]
            apply List.map_congr_left
            intro ao _
            exact absoluteFn_pointwise (derefMD ao) _ _ _
          · show (((a0 :: rest).map (fun ao =>
                some (absoluteFn (derefMD ao) (freshCopy "absolute" (derefMD ao))))).map
                  (fun bo => some (absoluteFn (derefMD bo) (freshCopy "absolute" (derefMD bo))))).map
                  (fun o => (derefMD o).name)
              = ((a0 :: rest).map (fun ao =>
                  some (absoluteFn (derefMD ao) (freshCopy "absolute" (derefMD ao))))).map
                  (fun o => ("absolute(" ++ (derefMD o).name ++ ")"))
            rw [List.map_map, List.map_map, List.map_map]
            apply List.map_congr_left
            intro ao _
            rfl

theorem map_pair_false_map {α β : Type} (l : List α) (f : α × Bool → β) :
    (l.map (fun v => (v, false))).map f = l.map (fun v => f (v, false)) := by
  rw [List.map_map]
  rfl

theorem isNonNullFn_const_one (s : MetricData)
    (habs : s.isAbsent = List.replicate s.values.length false) :
    isNonNullFn s (freshCopy "isNonNull" s)
      = { s with
          name := ("isNonNull(" ++ s.name ++ ")"),
          values := List.replicate s.values.length (.fin 1),
          isAbsent := List.replicate s.values.length false } := by
  obtain ⟨n, st, sp, stp, vals, ab, c, d, dr, sy⟩ := s
  simp only at habs
  subst habs
  unfold isNonNullFn freshCopy
  congr 1
  rw [zipPad_replicate_false vals _ rfl, List.map_map]
  have : ((fun p => if p.2 = true then F.fin 0 else F.fin 1) ∘ fun v => (v, false))
      = fun _ : F => F.fin 1 := by
    funext v
    rfl
  rw [this, List.map_const']

theorem isNonNullFn_shape (a r : MetricData) :
    (isNonNullFn a r).isAbsent = List.replicate (isNonNullFn a r).values.length false := by
  show List.replicate a.values.length false
      = List.replicate ((zipPad a.values a.isAbsent).map _).length false
  rw [List.length_map, zipPad_length]

theorem eval_isNonNull_twice (X : Expr) (reqFrom reqUntil : Int) (V : Values) :
    evalExpr (isNonNullCall (isNonNullCall X)) reqFrom reqUntil V
      = (evalExpr (isNonNullCall X) reqFrom reqUntil V).map
          (fun o => some { derefMD o with
            name := ("isNonNull(" ++ (derefMD o).name ++ ")"),
            values := List.replicate (derefMD o).values.length (.fin 1),
            isAbsent := List.replicate (derefMD o).values.length false }) := by
  have e1 : evalExpr (isNonNullCall X) reqFrom reqUntil V
      = forEachFrom "isNonNull" (getSeriesFrom X (evalExpr X reqFrom reqUntil V)) isNonNullFn := rfl
  have e2 : evalExpr (isNonNullCall (isNonNullCall X)) reqFrom reqUntil V
      = forEachFrom "isNonNull" (getSeriesFrom (isNonNullCall X)
          (evalExpr (isNonNullCall X) reqFrom reqUntil V)) isNonNullFn := rfl
  rw [e1, e2, e1]
  cases h : getSeriesFrom X (evalExpr X reqFrom reqUntil V) with
  | error err => rfl
  | ok l =>
      have hne := getSeriesFrom_ok_ne h
      cases l with
      | nil => exact absurd rfl hne
      | cons a0 rest =>
          show (((a0 :: rest).map (fun ao =>
              some (isNonNullFn (derefMD ao) (freshCopy "isNonNull" (derefMD ao))))).map
                (fun bo => some (isNonNullFn (derefMD bo) (freshCopy "isNonNull" (derefMD bo)))))
            = ((a0 :: rest).map (fun ao =>
                some (isNonNullFn (derefMD ao) (freshCopy "isNonNull" (derefMD ao))))).map
                (fun o => some { derefMD o with
                  name := ("isNonNull(" ++ (derefMD o).name ++ ")"),
                  values := List.replicate (derefMD o).values.length (.fin 1),
                  isAbsent := List.replicate (derefMD o).values.length false })
          rw [List.map_map, List.map_map]
          apply List.map_congr_left
          intro ao _
          have hs := isNonNullFn_const_one
            (isNonNullFn (derefMD ao) (freshCopy "isNonNull" (derefMD ao)))
            (isNonNullFn_shape _ _)
          show some (isNonNullFn (isNonNullFn (derefMD ao) (freshCopy "isNonNull" (derefMD ao)))
              (freshCopy "isNonNull" (isNonNullFn (derefMD ao) (freshCopy "isNonNull" (derefMD ao)))))
            = some { isNonNullFn (derefMD ao) (freshCopy "isNonNull" (derefMD ao)) with
                name := ("isNonNull(" ++
                  (isNonNullFn (derefMD ao) (freshCopy "isNonNull" (derefMD ao))).name ++ ")"),
                values := List.replicate
                  (isNonNullFn (derefMD ao) (freshCopy "isNonNull" (derefMD ao))).values.length (.fin 1),
                isAbsent := List.replicate
                  (isNonNullFn (derefMD ao) (freshCopy "isNonNull" (derefMD ao))).values.length false }
          rw [hs]

theorem maGo_length (lp : List (F × Bool)) (w : Windowed) (i0 : Nat) (n : Int) :
    (maGo w i0 n lp).length = lp.length := by
  induction lp generalizing w i0 with
  | nil => rfl
  | cons p rest ih => simp [maGo, ih]

theorem maGo_absent (lp : List (F × Bool)) (w : Windowed) (i0 : Nat) (n : Int) (j : Nat)
    (hj : j < lp.length) (hn : ((i0 + j : Nat) : Int) < n) :
    ((maGo w i0 n lp).map Prod.snd).getD j false = true := by
  induction lp generalizing w i0 j with
  | nil => simp at hj
  | cons p rest ih =>
      cases j with
      | zero =>
          have hcond : ((i0 : Int) < n) := by
            simpa using hn
          simp [maGo, hcond]
      | succ j2 =>
          have hrec := ih (w.push (if p.2 then F.nan else p.1)) (i0 + 1) j2
            (by simpa using Nat.lt_of_succ_lt_succ hj)
            (by push_cast at hn ⊢; omega)
          simpa [maGo] using hrec

theorem movingAverage_window_absent (v : F) (vs : String) (a0 : Expr) (t1 : String)
    (v1 : F) (vs1 : String) (args1 : ExprList) (as1 a : String) (rest : ExprList)
    (reqFrom reqUntil : Int) (V : Values) (o : Option MetricData) (i : Nat)
    (h : o ∈ evalExpr (.mk "movingAverage" .etFunc v vs
        (.cons a0 (.cons (.mk t1 .etConst v1 vs1 args1 as1) rest)) a) reqFrom reqUntil V)
    (hi : i < (derefMD o).values.length)
    (hn : (i : Int) < F.toInt v1) :
    bidx (derefMD o).isAbsent i = true := by
  have e1 : evalExpr (.mk "movingAverage" .etFunc v vs
      (.cons a0 (.cons (.mk t1 .etConst v1 vs1 args1 as1) rest)) a) reqFrom reqUntil V
      = movingAverageFrom (getSeriesFrom a0 (evalExpr a0 reqFrom reqUntil V))
          (.ok (F.toInt v1, false)) reqFrom reqUntil := rfl
  rw [e1] at h
  cases hg : getSeriesFrom a0 (evalExpr a0 reqFrom reqUntil V) with
  | error err =>
      rw [hg] at h
      simp [movingAverageFrom] at h
  | ok l =>
      rw [hg] at h
      have e2 : movingAverageFrom (Except.ok l) (Except.ok (F.toInt v1, false))
          reqFrom reqUntil = movingAverageImpl l (F.toInt v1) reqFrom reqUntil := rfl
      rw [e2] at h
      unfold movingAverageImpl at h
      rw [List.mem_map] at h
      obtain ⟨ao, hao, rfl⟩ := h
      show ((maGo (Windowed.mk (List.replicate (F.toInt v1).toNat (.fin 0)) 0 0 (.fin 0) (.fin 0) 0)
          0 (F.toInt v1) (zipPad (derefMD ao).values (derefMD ao).isAbsent)).map
          Prod.snd).getD i false = true
      apply maGo_absent
      · have h2 : ((maGo (Windowed.mk (List.replicate (F.toInt v1).toNat (.fin 0)) 0 0
            (.fin 0) (.fin 0) 0) 0 (F.toInt v1)
            (zipPad (derefMD ao).values (derefMD ao).isAbsent)).map Prod.fst).length
            = (zipPad (derefMD ao).values (derefMD ao).isAbsent).length := by
          rw [List.length_map, maGo_length]
        exact lt_of_lt_of_eq hi h2
      · simpa using hn

/-- C5 (amended): `alias(alias(x, s), s) == alias(x, s)` holds as full
series equality; `absolute(absolute(x))` equals `absolute(x)` in values
and absence flags, but its display names gain a second `absolute(...)`
wrapper; `isNonNull(isNonNull(x))` is, per input series, the
everywhere-present all-ones series with a second `isNonNull(...)` name
wrapper — it differs from `isNonNull(x)` in value wherever `x` has an
absent sample, so `isNonNull` is not idempotent. -/
theorem eval_idempotence_C5_amended :
    (∀ (X : Expr) (s : String) (reqFrom reqUntil : Int) (V : Values),
        evalExpr (aliasCall (aliasCall X s) s) reqFrom reqUntil V
          = evalExpr (aliasCall X s) reqFrom reqUntil V)
  ∧ (∀ (X : Expr) (reqFrom reqUntil : Int) (V : Values),
        (evalExpr (absoluteCall (absoluteCall X)) reqFrom reqUntil V).map
            (fun o => ((derefMD o).values, (derefMD o).isAbsent))
          = (evalExpr (absoluteCall X) reqFrom reqUntil V).map
            (fun o => ((derefMD o).values, (derefMD o).isAbsent))
        ∧ (evalExpr (absoluteCall (absoluteCall X)) reqFrom reqUntil V).map
            (fun o => (derefMD o).name)
          = (evalExpr (absoluteCall X) reqFrom reqUntil V).map
            (fun o => ("absolute(" ++ (derefMD o).name ++ ")")))
  ∧ (∀ (X : Expr) (reqFrom reqUntil : Int) (V : Values),
        evalExpr (isNonNullCall (isNonNullCall X)) reqFrom reqUntil V
          = (evalExpr (isNonNullCall X) reqFrom reqUntil V).map
              (fun o => some { derefMD o with
                name := ("isNonNull(" ++ (derefMD o).name ++ ")"),
                values := List.replicate (derefMD o).values.length (.fin 1),
                isAbsent := List.replicate (derefMD o).values.length false })) :=
  ⟨eval_alias_idem, eval_absolute_idem, eval_isNonNull_twice⟩

/-- Counterexample to C5 as stated: over the series `d` with an absent
sample, `isNonNull(isNonNull(d))` differs from `isNonNull(d)` (the outer
call turns the stored 0 at the absent position into 1), and
`absolute(absolute(d))` differs from `absolute(d)` (the display name
gains a second wrapper). -/
theorem eval_idempotence_C5_counterexample :
    evalExpr (isNonNullCall (isNonNullCall (nameE "d"))) 0 0
        (singleValues "d" [⟨"d", 0, 120, 60, [.fin 7, .fin 2], [true, false], "",
          false, false, false⟩])
      ≠ evalExpr (isNonNullCall (nameE "d")) 0 0
        (singleValues "d" [⟨"d", 0, 120, 60, [.fin 7, .fin 2], [true, false], "",
          false, false, false⟩])
  ∧ evalExpr (absoluteCall (absoluteCall (nameE "d"))) 0 0
        (singleValues "d" [⟨"d", 0, 120, 60, [.fin 7, .fin 2], [true, false], "",
          false, false, false⟩])
      ≠ evalExpr (absoluteCall (nameE "d")) 0 0
        (singleValues "d" [⟨"d", 0, 120, 60, [.fin 7, .fin 2], [true, false], "",
          false, false, false⟩]) := by
  constructor
  · decide
  · decide

/-- C7: `movingAverage(A, 3)` on `A = [1,2,3,4,5]` (no absent samples)
returns one series whose first three samples are absent and whose fourth
and fifth values are 2 and 3; in general, with an integer window-size
argument `n`, every output sample at an index below `n` is absent (the
window must be full before a result is emitted). -/
theorem movingAverage_C7 :
    (evalExpr (.mk "movingAverage" .etFunc (.fin 0) "" (toExprList [nameE "a", constE 3]) "")
        0 300
        (singleValues "a" [⟨"a", 0, 300, 60, [.fin 1, .fin 2, .fin 3, .fin 4, .fin 5],
          [false, false, false, false, false], "", false, false, false⟩])
      = [some ⟨"movingAverage(a,3)", 0, 300, 60,
          [.fin 0, .fin 0, .fin 0, .fin 2, .fin 3],
          [true, true, true, false, false], "", false, false, false⟩])
  ∧ (∀ (v : F) (vs : String) (a0 : Expr) (t1 : String) (v1 : F) (vs1 : String)
        (args1 : ExprList) (as1 a : String) (rest : ExprList)
        (reqFrom reqUntil : Int) (V : Values) (o : Option MetricData) (i : Nat),
        o ∈ evalExpr (.mk "movingAverage" .etFunc v vs
            (.cons a0 (.cons (.mk t1 .etConst v1 vs1 args1 as1) rest)) a) reqFrom reqUntil V →
        i < (derefMD o).values.length →
        (i : Int) < F.toInt v1 →
        bidx (derefMD o).isAbsent i = true) :=
  ⟨by decide, movingAverage_window_absent⟩

/-- Witness for C7 at a concrete input: index 1 of the five-point
moving-average output is inside the window and indeed absent. -/
theorem movingAverage_C7_witness :
    (some ⟨"movingAverage(a,3)", 0, 300, 60,
        [.fin 0, .fin 0, .fin 0, .fin 2, .fin 3],
        [true, true, true, false, false], "", false, false, false⟩
      ∈ evalExpr (.mk "movingAverage" .etFunc (.fin 0) ""
          (toExprList [nameE "a", constE 3]) "") 0 300
          (singleValues "a" [⟨"a", 0, 300, 60, [.fin 1, .fin 2, .fin 3, .fin 4, .fin 5],
            [false, false, false, false, false], "", false, false, false⟩]))
  ∧ bidx (derefMD (some (⟨"movingAverage(a,3)", 0, 300, 60,
        [.fin 0, .fin 0, .fin 0, .fin 2, .fin 3],
        [true, true, true, false, false], "", false, false, false⟩ : MetricData))).isAbsent 1
      = true :=
  ⟨by decide,
   movingAverage_C7.2 (.fin 0) "" (nameE "a") "" (.fin 3) "" .nil "" "" .nil 0 300
     (singleValues "a" [⟨"a", 0, 300, 60, [.fin 1, .fin 2, .fin 3, .fin 4, .fin 5],
       [false, false, false, false, false], "", false, false, false⟩])
     _ 1 (by decide) (by decide) (by decide)⟩

theorem sum_fold_fin (l : List F) (acc : ℚ) (hfin : ∀ x ∈ l, ∃ q, x = F.fin q) :
    ∃ q, l.foldl F.add (F.fin acc) = F.fin q := by
  induction l generalizing acc with
  | nil => exact ⟨acc, rfl⟩
  | cons x rest ih =>
      obtain ⟨qx, rfl⟩ := hfin x (by simp)
      exact ih (qadd acc qx) (fun y hy => hfin y (by simp [hy]))

theorem max_fold_fin (l : List F) (acc : F)
    (hfin : ∀ x ∈ l, ∃ q, x = F.fin q)
    (hacc : acc = F.inf false ∨ ∃ qa, acc = F.fin qa)
    (hne : l ≠ [] ∨ ∃ qa, acc = F.fin qa) :
    ∃ q, l.foldl (fun m v => if F.bgt v m then v else m) acc = F.fin q := by
  induction l generalizing acc with
  | nil =>
      rcases hne with hne | hne
      · exact absurd rfl hne
      · exact hne
  | cons x rest ih =>
      obtain ⟨qx, rfl⟩ := hfin x (by simp)
      have hfr : ∀ y ∈ rest, ∃ q, y = F.fin q := fun y hy => hfin y (by simp [hy])
      rcases hacc with rfl | ⟨qa, rfl⟩
      · rw [List.foldl_cons]
        have hstep : (if F.bgt (F.fin qx) (F.inf false) then F.fin qx else F.inf false)
            = F.fin qx := rfl
        rw [hstep]
        exact ih (F.fin qx) hfr (Or.inr ⟨qx, rfl⟩) (Or.inr ⟨qx, rfl⟩)
      · rw [List.foldl_cons]
        by_cases hb : F.bgt (F.fin qx) (F.fin qa)
        · rw [if_pos hb]
          exact ih (F.fin qx) hfr (Or.inr ⟨qx, rfl⟩) (Or.inr ⟨qx, rfl⟩)
        · rw [if_neg hb]
          exact ih (F.fin qa) hfr (Or.inr ⟨qa, rfl⟩) (Or.inr ⟨qa, rfl⟩)

theorem min_fold_fin (l : List F) (acc : F)
    (hfin : ∀ x ∈ l, ∃ q, x = F.fin q)
    (hacc : acc = F.inf true ∨ ∃ qa, acc = F.fin qa)
    (hne : l ≠ [] ∨ ∃ qa, acc = F.fin qa) :
    ∃ q, l.foldl (fun m v => if F.blt v m then v else m) acc = F.fin q := by
  induction l generalizing acc with
  | nil =>
      rcases hne with hne | hne
      · exact absurd rfl hne
      · exact hne
  | cons x rest ih =>
      obtain ⟨qx, rfl⟩ := hfin x (by simp)
      have hfr : ∀ y ∈ rest, ∃ q, y = F.fin q := fun y hy => hfin y (by simp [hy])
      rcases hacc with rfl | ⟨qa, rfl⟩
      · rw [List.foldl_cons]
        have hstep : (if F.blt (F.fin qx) (F.inf true) then F.fin qx else F.inf true)
            = F.fin qx := rfl
        rw [hstep]
        exact ih (F.fin qx) hfr (Or.inr ⟨qx, rfl⟩) (Or.inr ⟨qx, rfl⟩)
      · rw [List.foldl_cons]
        by_cases hb : F.blt (F.fin qx) (F.fin qa)
        · rw [if_pos hb]
          exact ih (F.fin qx) hfr (Or.inr ⟨qx, rfl⟩) (Or.inr ⟨qx, rfl⟩)
        · rw [if_neg hb]
          exact ih (F.fin qa) hfr (Or.inr ⟨qa, rfl⟩) (Or.inr ⟨qa, rfl⟩)

theorem agg_preserves_fin (f : List F → F)
    (hf : f ∈ ([sumAgg, avgAgg, maxAgg, minAgg] : List (List F → F)))
    (l : List F) (hne : l ≠ []) (hfin : ∀ x ∈ l, ∃ q, x = F.fin q) :
    ∃ q, f l = F.fin q := by
  have hlen0 : ((l.length : ℚ)) ≠ 0 := by
    have : l.length ≠ 0 := fun hc => hne (List.length_eq_zero.mp hc)
    exact_mod_cast this
  simp only [List.mem_cons, List.not_mem_nil, or_false] at hf
  rcases hf with rfl | rfl | rfl | rfl
  · exact sum_fold_fin l 0 hfin
  · obtain ⟨qs, hs⟩ := sum_fold_fin l 0 hfin
    show ∃ q, F.div (l.foldl F.add (F.fin 0)) (F.fin l.length) = F.fin q
    rw [hs]
    show ∃ q, (if ((l.length : ℚ)) = 0 then (if qs = 0 then F.nan else F.inf (decide (0 < qs)))
      else F.fin (qdiv qs l.length)) = F.fin q
    rw [if_neg hlen0]
    exact ⟨_, rfl⟩
  · exact max_fold_fin l _ hfin (Or.inl rfl) (Or.inl hne)
  · exact min_fold_fin l _ hfin (Or.inl rfl) (Or.inl hne)

theorem fidx_range_map (n : Nat) (g : Nat → F) (i : Nat) (h : i < n) :
    fidx ((List.range n).map g) i = g i := by
  unfold fidx
  rw [List.get?_map, List.get?_range h]
  rfl

theorem bidx_map_isNaN (vals : List F) (i : Nat) (h : i < vals.length) :
    bidx (vals.map F.isNaN) i = (fidx vals i).isNaN := by
  unfold bidx fidx
  rw [List.getD_eq_get?, List.get?_map]
  cases hg : vals.get? i with
  | none => exact absurd (List.get?_eq_none.mp hg) (by omega)
  | some x => rfl

/-- C2: for `sumSeries`/`averageSeries`/`maxSeries`/`minSeries` evaluated
over a nonempty list of input series of equal length (with finite values
at non-absent points, per the data-model contract), `aggregateSeries`
returns exactly one series in which, at every index `i`, the output is
absent iff every input is absent at `i`, and at non-absent points the
value is the reducer applied to exactly the values of the inputs that are
not absent at `i`, in input order. -/
theorem aggregate_C2 (target argString : String) (args : List MetricData) (L : Nat)
    (hne : args ≠ [])
    (hlen : ∀ md ∈ args, md.values.length = L ∧ md.isAbsent.length = L)
    (hfin : ∀ md ∈ args, ∀ i, i < L → bidx md.isAbsent i = false →
      ∃ q, fidx md.values i = F.fin q)
    (f : List F → F) (hf : f ∈ ([sumAgg, avgAgg, maxAgg, minAgg] : List (List F → F))) :
    ∃ r : MetricData,
      aggregateSeries target argString (args.map some) f = [some r]
      ∧ r.values.length = L
      ∧ ∀ i, i < L →
          ((bidx r.isAbsent i = true ↔ ∀ md ∈ args, bidx md.isAbsent i = true)
           ∧ (bidx r.isAbsent i = false →
               fidx r.values i = f (args.filterMap (fun md =>
                 if bidx md.isAbsent i then none else some (fidx md.values i))))) := by
  cases args with
  | nil => exact absurd rfl hne
  | cons a rest =>
      have hLa : a.values.length = L := (hlen a (by simp)).1
      have hcol : ∀ i, presentAt ((a :: rest).map some) i
          = (a :: rest).filterMap (fun md =>
              if bidx md.isAbsent i then none else some (fidx md.values i)) := by
        intro i
        unfold presentAt
        rw [List.filterMap_map]
        rfl
      refine ⟨_, rfl, ?_, ?_⟩
      · show ((List.range a.values.length).map _).length = L
        rw [List.length_map, List.length_range, hLa]
      · intro i hi
        have hia : i < a.values.length := by omega
        have hv : fidx ((List.range a.values.length).map (fun j =>
            if (presentAt ((a :: rest).map some) j).isEmpty then F.nan
            else f (presentAt ((a :: rest).map some) j))) i
            = (if (presentAt ((a :: rest).map some) i).isEmpty then F.nan
               else f (presentAt ((a :: rest).map some) i)) :=
          fidx_range_map _ _ i hia
        have hlen2 : i < ((List.range a.values.length).map (fun j =>
            if (presentAt ((a :: rest).map some) j).isEmpty then F.nan
            else f (presentAt ((a :: rest).map some) j))).length := by
          rw [List.length_map, List.length_range]
          exact hia
        have hb : bidx (((List.range a.values.length).map (fun j =>
            if (presentAt ((a :: rest).map some) j).isEmpty then F.nan
            else f (presentAt ((a :: rest).map some) j))).map F.isNaN) i
            = (fidx ((List.range a.values.length).map (fun j =>
                if (presentAt ((a :: rest).map some) j).isEmpty then F.nan
                else f (presentAt ((a :: rest).map some) j))) i).isNaN :=
          bidx_map_isNaN _ i hlen2
        by_cases hP : (presentAt ((a :: rest).map some) i).isEmpty
        · constructor
          · show bidx (((List.range a.values.length).map _).map F.isNaN) i = true ↔ _
            rw [hb, hv, if_pos hP]
            simp only [F.isNaN, true_iff]
            intro md hmd
            have hnil : (a :: rest).filterMap (fun md =>
                if bidx md.isAbsent i then none else some (fidx md.values i)) = [] := by
              rw [← hcol i]
              exact List.isEmpty_iff.mp hP
            have := (List.filterMap_eq_nil.mp hnil) md hmd
            by_cases habs : bidx md.isAbsent i
            · exact habs
            · rw [if_neg habs] at this
              cases this
          · show bidx (((List.range a.values.length).map _).map F.isNaN) i = false → _
            rw [hb, hv, if_pos hP]
            intro hfalse
            cases hfalse
        · have hnonnil : (a :: rest).filterMap (fun md =>
              if bidx md.isAbsent i then none else some (fidx md.values i)) ≠ [] := by
            rw [← hcol i]
            intro hc
            rw [hc] at hP
            simp at hP
          have hfinP : ∀ x ∈ (a :: rest).filterMap (fun md =>
              if bidx md.isAbsent i then none else some (fidx md.values i)),
              ∃ q, x = F.fin q := by
            intro x hx
            obtain ⟨md, hmd, hfm⟩ := List.mem_filterMap.mp hx
            by_cases habs : bidx md.isAbsent i
            · rw [if_pos habs] at hfm
              cases hfm
            · rw [if_neg habs] at hfm
              obtain ⟨q, hq⟩ := hfin md hmd i hi (by simpa using habs)
              have hxq : x = fidx md.values i := by
                injection hfm with h2
                exact h2.symm
              exact ⟨q, by rw [hxq, hq]⟩
          obtain ⟨qf, hqf⟩ := agg_preserves_fin f hf _ hnonnil hfinP
          constructor
          · show bidx (((List.range a.values.length).map _).map F.isNaN) i = true ↔ _
            rw [hb, hv, if_neg hP, hcol i, hqf]
            simp only [F.isNaN, Bool.false_eq_true, false_iff]
            intro hall
            apply hnonnil
            apply List.filterMap_eq_nil.mpr
            intro md hmd
            rw [if_pos (hall md hmd)]
          · intro hfalse
            show fidx ((List.range a.values.length).map _) i = _
            rw [hv, if_neg hP, hcol i]

/-- Witness for C2: the sum of two concrete two-point series, one with an
absent sample. -/
theorem aggregate_C2_witness :
    (([⟨"a", 0, 120, 60, [.fin 1, .fin 2], [false, false], "", false, false, false⟩,
       ⟨"c", 0, 120, 60, [.fin 10, .fin 0], [false, true], "", false, false, false⟩]
       : List MetricData) ≠ [])
  ∧ (∃ r : MetricData,
      aggregateSeries "sumSeries" "a,c"
        (([⟨"a", 0, 120, 60, [.fin 1, .fin 2], [false, false], "", false, false, false⟩,
           ⟨"c", 0, 120, 60, [.fin 10, .fin 0], [false, true], "", false, false, false⟩]
           : List MetricData).map some) sumAgg = [some r]
      ∧ r.values.length = 2
      ∧ ∀ i, i < 2 →
          ((bidx r.isAbsent i = true ↔
             ∀ md ∈ ([⟨"a", 0, 120, 60, [.fin 1, .fin 2], [false, false], "", false, false, false⟩,
               ⟨"c", 0, 120, 60, [.fin 10, .fin 0], [false, true], "", false, false, false⟩]
               : List MetricData), bidx md.isAbsent i = true)
           ∧ (bidx r.isAbsent i = false →
               fidx r.values i = sumAgg
                 (([⟨"a", 0, 120, 60, [.fin 1, .fin 2], [false, false], "", false, false, false⟩,
                    ⟨"c", 0, 120, 60, [.fin 10, .fin 0], [false, true], "", false, false, false⟩]
                    : List MetricData).filterMap (fun md =>
                   if bidx md.isAbsent i then none else some (fidx md.values i)))))) :=
  ⟨by decide,
   aggregate_C2 "sumSeries" "a,c" _ 2 (by decide) (by decide)
     (by
       intro md hmd i hi
       rw [List.mem_cons, List.mem_singleton] at hmd
       rcases hmd with rfl | rfl <;> interval_cases i
       · exact fun _ => ⟨1, rfl⟩
       · exact fun _ => ⟨2, rfl⟩
       · exact fun _ => ⟨10, rfl⟩
       · exact fun habs => absurd habs (by decide))
     sumAgg (List.mem_cons_self _ _)⟩

/-- If `getSeriesFrom` succeeds, it returns its input list unchanged. -/
theorem getSeriesFrom_ok_eq {a : Expr} {res l : List (Option MetricData)}
    (h : getSeriesFrom a res = .ok l) : l = res := by
  unfold getSeriesFrom at h
  by_cases h1 : (a.etype ≠ .etName ∧ a.etype ≠ .etFunc)
  · rw [if_pos h1] at h
    cases h
  · rw [if_neg h1] at h
    by_cases h2 : res.isEmpty
    · rw [if_pos h2] at h
      cases h
    · rw [if_neg h2] at h
      have h3 : res = l := by injection h
      exact h3.symm

/-- Indexing a `(List.range n).map g` with `bidx` below `n` yields `g i`. -/
theorem bidx_range_map (n : Nat) (g : Nat → Bool) (i : Nat) (h : i < n) :
    bidx ((List.range n).map g) i = g i := by
  unfold bidx
  rw [List.getD_eq_get?, List.get?_map, List.get?_range h]
  rfl

/-- Claim C3: divideSeries fails closed (the contrapositive of this theorem:
whenever the argument shape, the single-series results, the equal stepTime or
the equal length is violated, the result is the empty list); when the result
is nonempty it is exactly one series whose sample at `i` is absent iff the
numerator is absent at `i`, the denominator is absent at `i`, or the
denominator value at `i` equals 0, and is otherwise the quotient of the
numerator and denominator values at `i`. -/
theorem divideSeries_C3 (v : F) (vs : String) (args : ExprList) (a : String)
    (reqFrom reqUntil : Int) (V : Values)
    (hne : evalExpr (.mk "divideSeries" .etFunc v vs args a) reqFrom reqUntil V ≠ []) :
    ∃ (a0 a1 : Expr) (nd dd : Option MetricData) (r : MetricData),
      args = .cons a0 (.cons a1 .nil)
      ∧ evalExpr a0 reqFrom reqUntil V = [nd]
      ∧ evalExpr a1 reqFrom reqUntil V = [dd]
      ∧ (derefMD nd).stepTime = (derefMD dd).stepTime
      ∧ (derefMD nd).values.length = (derefMD dd).values.length
      ∧ evalExpr (.mk "divideSeries" .etFunc v vs args a) reqFrom reqUntil V = [some r]
      ∧ r.values.length = (derefMD nd).values.length
      ∧ ∀ i, i < (derefMD nd).values.length →
          ((bidx r.isAbsent i = true ↔
             (bidx (derefMD nd).isAbsent i = true ∨ bidx (derefMD dd).isAbsent i = true
              ∨ F.beq (fidx (derefMD dd).values i) (.fin 0) = true))
           ∧ (bidx r.isAbsent i = false →
               fidx r.values i
                 = F.div (fidx (derefMD nd).values i) (fidx (derefMD dd).values i))) := by
  cases args with
  | nil => exact absurd rfl hne
  | cons a0 rest =>
      cases rest with
      | nil => exact absurd rfl hne
      | cons a1 rest2 =>
          cases rest2 with
          | cons a2 rest3 => exact absurd rfl hne
          | nil =>
              have e1 : evalExpr (.mk "divideSeries" .etFunc v vs
                  (.cons a0 (.cons a1 .nil)) a) reqFrom reqUntil V
                  = divideFrom a (getSeriesFrom a0 (evalExpr a0 reqFrom reqUntil V))
                      (getSeriesFrom a1 (evalExpr a1 reqFrom reqUntil V)) := rfl
              rw [e1] at hne ⊢
              cases hg0 : getSeriesFrom a0 (evalExpr a0 reqFrom reqUntil V) with
              | error err =>
                  rw [hg0] at hne
                  exact absurd rfl hne
              | ok num =>
                  rw [hg0] at hne
                  cases hg1 : getSeriesFrom a1 (evalExpr a1 reqFrom reqUntil V) with
                  | error err =>
                      rw [hg1] at hne
                      exact absurd rfl hne
                  | ok den =>
                      rw [hg1] at hne
                      have e2 : divideFrom a (Except.ok num) (Except.ok den)
                          = divideSeriesImpl a num den := rfl
                      rw [e2] at hne ⊢
                      unfold divideSeriesImpl at hne ⊢
                      by_cases hl : (num.length ≠ 1 ∨ den.length ≠ 1)
                      · rw [if_pos hl] at hne
                        exact absurd rfl hne
                      · rw [if_neg hl] at hne ⊢
                        push_neg at hl
                        obtain ⟨nd, rfl⟩ := List.length_eq_one.mp hl.1
                        obtain ⟨dd, rfl⟩ := List.length_eq_one.mp hl.2
                        by_cases hst : ((derefMD ([nd].headD none)).stepTime
                              ≠ (derefMD ([dd].headD none)).stepTime
                            ∨ (derefMD ([nd].headD none)).values.length
                              ≠ (derefMD ([dd].headD none)).values.length)
                        · rw [if_pos hst] at hne
                          exact absurd rfl hne
                        · rw [if_neg hst] at hne ⊢
                          push_neg at hst
                          refine ⟨a0, a1, nd, dd, _, rfl,
                            (getSeriesFrom_ok_eq hg0).symm, (getSeriesFrom_ok_eq hg1).symm,
                            hst.1, hst.2, rfl, ?_, ?_⟩
                          · show (((List.range (derefMD nd).values.length).map _).map
                                Prod.fst).length = _
                            rw [List.length_map, List.length_map, List.length_range]
                          · intro i hi
                            simp only [List.headD_cons]
                            constructor
                            · show bidx (((List.range
                                  (derefMD nd).values.length).map _).map
                                  Prod.snd) i = true ↔ _
                              rw [List.map_map, bidx_range_map _ _ i hi]
                              simp only [Function.comp_apply]
                              by_cases hc : (bidx (derefMD nd).isAbsent i
                                  || bidx (derefMD dd).isAbsent i
                                  || F.beq (fidx (derefMD dd).values i)
                                    (.fin 0)) = true
                              · rw [if_pos hc]
                                simpa [or_assoc] using hc
                              · rw [if_neg hc]
                                simp only [Bool.or_eq_true] at hc
                                push_neg at hc
                                simp [hc.1.1, hc.1.2, hc.2]
                            · intro hfalse
                              rw [List.map_map, bidx_range_map _ _ i hi] at hfalse
                              simp only [Function.comp_apply] at hfalse
                              show fidx (((List.range
                                  (derefMD nd).values.length).map _).map
                                  Prod.fst) i = _
                              rw [List.map_map, fidx_range_map _ _ i hi]
                              simp only [Function.comp_apply]
                              by_cases hc : (bidx (derefMD nd).isAbsent i
                                  || bidx (derefMD dd).isAbsent i
                                  || F.beq (fidx (derefMD dd).values i)
                                    (.fin 0)) = true
                              · rw [if_pos hc] at hfalse
                                simp at hfalse
                              · rw [if_neg hc]

theorem divideSeries_C3_witness :
    (evalExpr divE 0 1 vC3 ≠ [])
    ∧ ∃ (a0 a1 : Expr) (nd dd : Option MetricData) (r : MetricData),
        divE.args = .cons a0 (.cons a1 .nil)
        ∧ evalExpr a0 0 1 vC3 = [nd]
        ∧ evalExpr a1 0 1 vC3 = [dd]
        ∧ (derefMD nd).stepTime = (derefMD dd).stepTime
        ∧ (derefMD nd).values.length = (derefMD dd).values.length
        ∧ evalExpr divE 0 1 vC3 = [some r]
        ∧ r.values.length = (derefMD nd).values.length
        ∧ ∀ i, i < (derefMD nd).values.length →
            ((bidx r.isAbsent i = true ↔
               (bidx (derefMD nd).isAbsent i = true ∨ bidx (derefMD dd).isAbsent i = true
                ∨ F.beq (fidx (derefMD dd).values i) (.fin 0) = true))
             ∧ (bidx r.isAbsent i = false →
                 fidx r.values i
                   = F.div (fidx (derefMD nd).values i) (fidx (derefMD dd).values i))) :=
  ⟨by decide, divideSeries_C3 (.fin 0) "" (.cons (nameE "n") (.cons (nameE "d") .nil))
    "n,d" 0 1 vC3 (by decide)⟩

/-- Claim C4: each of the eight value filters keeps exactly the input
series whose stated reducer over non-absent samples passes the comparison
with `n`: `averageAbove`/`currentAbove` keep series with reduced value
`>= n` (inclusive), `maximumAbove`/`minimumAbove` keep `> n` (strict), and
every `*Below` variant keeps `<= n` (inclusive). -/
theorem filters_C4 (t : String)
    (ht : t ∈ ["averageAbove", "averageBelow", "currentAbove", "currentBelow",
      "maximumAbove", "maximumBelow", "minimumAbove", "minimumBelow"])
    (v : F) (vs a : String) (a0 : Expr) (rest : ExprList)
    (reqFrom reqUntil : Int) (V : Values) (n : F) (l : List (Option MetricData))
    (hn : getFloatArgL (.cons a0 rest) 1 = .ok n)
    (hg : getSeriesFrom a0 (evalExpr a0 reqFrom reqUntil V) = .ok l) :
    evalExpr (.mk t .etFunc v vs (.cons a0 rest) a) reqFrom reqUntil V
      = l.filter (fun ao =>
          let md := derefMD ao
          if t = "averageAbove" then F.bge (avgValue md.values md.isAbsent) n
          else if t = "currentAbove" then F.bge (currentValue md.values md.isAbsent) n
          else if t = "maximumAbove" then F.bgt (maxValue md.values md.isAbsent) n
          else if t = "minimumAbove" then F.bgt (minValue md.values md.isAbsent) n
          else if t = "averageBelow" then F.ble (avgValue md.values md.isAbsent) n
          else if t = "currentBelow" then F.ble (currentValue md.values md.isAbsent) n
          else if t = "maximumBelow" then F.ble (maxValue md.values md.isAbsent) n
          else F.ble (minValue md.values md.isAbsent) n) := by
  cases rest with
  | nil => exact Except.noConfusion hn
  | cons a1 rest2 =>
      simp only [List.mem_cons, List.not_mem_nil, or_false] at ht
      rcases ht with rfl|rfl|rfl|rfl|rfl|rfl|rfl|rfl
      all_goals (
        first
        | show aboveBelowFrom "averageAbove"
            (getSeriesFrom a0 (evalExpr a0 reqFrom reqUntil V))
            (getFloatArgL (.cons a0 (.cons a1 rest2)) 1) = _
        | show aboveBelowFrom "averageBelow"
            (getSeriesFrom a0 (evalExpr a0 reqFrom reqUntil V))
            (getFloatArgL (.cons a0 (.cons a1 rest2)) 1) = _
        | show aboveBelowFrom "currentAbove"
            (getSeriesFrom a0 (evalExpr a0 reqFrom reqUntil V))
            (getFloatArgL (.cons a0 (.cons a1 rest2)) 1) = _
        | show aboveBelowFrom "currentBelow"
            (getSeriesFrom a0 (evalExpr a0 reqFrom reqUntil V))
            (getFloatArgL (.cons a0 (.cons a1 rest2)) 1) = _
        | show aboveBelowFrom "maximumAbove"
            (getSeriesFrom a0 (evalExpr a0 reqFrom reqUntil V))
            (getFloatArgL (.cons a0 (.cons a1 rest2)) 1) = _
        | show aboveBelowFrom "maximumBelow"
            (getSeriesFrom a0 (evalExpr a0 reqFrom reqUntil V))
            (getFloatArgL (.cons a0 (.cons a1 rest2)) 1) = _
        | show aboveBelowFrom "minimumAbove"
            (getSeriesFrom a0 (evalExpr a0 reqFrom reqUntil V))
            (getFloatArgL (.cons a0 (.cons a1 rest2)) 1) = _
        | show aboveBelowFrom "minimumBelow"
            (getSeriesFrom a0 (evalExpr a0 reqFrom reqUntil V))
            (getFloatArgL (.cons a0 (.cons a1 rest2)) 1) = _
        rw [hg, hn]
        rfl)

theorem filters_C4_witness :
    ("averageAbove" ∈ (["averageAbove", "averageBelow", "currentAbove", "currentBelow",
        "maximumAbove", "maximumBelow", "minimumAbove", "minimumBelow"] : List String)
     ∧ getFloatArgL (.cons (nameE "m") (.cons (constE 2) .nil)) 1 = .ok (.fin 2)
     ∧ getSeriesFrom (nameE "m") (evalExpr (nameE "m") 0 1 vC4)
         = .ok [some ndC3, some ddC3])
    ∧ evalExpr (.mk "averageAbove" .etFunc (.fin 0) ""
        (.cons (nameE "m") (.cons (constE 2) .nil)) "") 0 1 vC4
      = [some ndC3, some ddC3].filter (fun ao =>
          let md := derefMD ao
          if "averageAbove" = "averageAbove" then
            F.bge (avgValue md.values md.isAbsent) (.fin 2)
          else if "averageAbove" = "currentAbove" then
            F.bge (currentValue md.values md.isAbsent) (.fin 2)
          else if "averageAbove" = "maximumAbove" then
            F.bgt (maxValue md.values md.isAbsent) (.fin 2)
          else if "averageAbove" = "minimumAbove" then
            F.bgt (minValue md.values md.isAbsent) (.fin 2)
          else if "averageAbove" = "averageBelow" then
            F.ble (avgValue md.values md.isAbsent) (.fin 2)
          else if "averageAbove" = "currentBelow" then
            F.ble (currentValue md.values md.isAbsent) (.fin 2)
          else if "averageAbove" = "maximumBelow" then
            F.ble (maxValue md.values md.isAbsent) (.fin 2)
          else F.ble (minValue md.values md.isAbsent) (.fin 2)) :=
  ⟨⟨by decide, by decide, by decide⟩,
   filters_C4 "averageAbove" (by decide) (.fin 0) "" "" (nameE "m")
     (.cons (constE 2) .nil) 0 1 vC4 (.fin 2) [some ndC3, some ddC3]
     (by decide) (by decide)⟩

/-- Indexed view of `zipPad` below the values length. -/
theorem zipPad_get (vs : List F) (ab : List Bool) (i : Nat) (h : i < vs.length) :
    (zipPad vs ab).get? i = some (fidx vs i, bidx ab i) := by
  induction vs generalizing ab i with
  | nil => simp at h
  | cons v vt ih =>
      cases ab with
      | nil =>
          cases i with
          | zero => rfl
          | succ n =>
              show (zipPad vt []).get? n = _
              rw [ih [] n (by simpa using h)]
              rfl
      | cons b bt =>
          cases i with
          | zero => rfl
          | succ n =>
              show (zipPad vt bt).get? n = _
              rw [ih bt n (by simpa using h)]
              rfl

/-- Telescoping of the derivative loop over the integral loop away from
the head: with the two accumulators equal and finite, each present sample
comes back unchanged and each absent sample stays absent. -/
theorem deriv_int_tail (l : List (F × Bool)) : ∀ (qc : ℚ),
    (∀ p ∈ l, p.2 = false → ∃ q, p.1 = F.fin q) →
    derivGo false (F.fin qc) (intGo (F.fin qc) l)
      = l.map (fun p => if p.2 then (F.fin 0, true) else (p.1, false)) := by
  induction l with
  | nil => intro qc _; rfl
  | cons p rest ih =>
      intro qc hfin
      by_cases hb : p.2 = true
      · show derivGo false (F.fin qc)
            (if p.2 then (F.fin 0, true) :: intGo (F.fin qc) rest
             else _) = _
        rw [if_pos hb]
        show (F.fin 0, true) :: derivGo false (F.fin qc) (intGo (F.fin qc) rest) = _
        rw [ih qc (fun q hq => hfin q (List.mem_cons_of_mem _ hq))]
        simp [hb]
      · have hb2 : p.2 = false := by
          cases h2 : p.2
          · rfl
          · exact absurd h2 hb
        obtain ⟨q, hq⟩ := hfin p (List.mem_cons_self _ _) hb2
        show derivGo false (F.fin qc)
            (if p.2 then _
             else (F.add (F.fin qc) p.1, false)
               :: intGo (F.add (F.fin qc) p.1) rest) = _
        rw [if_neg hb, hq]
        show (F.sub (F.add (F.fin qc) (F.fin q)) (F.fin qc), false)
            :: derivGo false (F.add (F.fin qc) (F.fin q))
                 (intGo (F.add (F.fin qc) (F.fin q)) rest) = _
        have harith : F.sub (F.add (F.fin qc) (F.fin q)) (F.fin qc) = F.fin q := by
          show F.fin (qadd (qadd qc q) (qneg qc)) = F.fin q
          rw [qadd_eq, qadd_eq, qneg_eq]
          norm_num
        have hadd : F.add (F.fin qc) (F.fin q) = F.fin (qadd qc q) := rfl
        rw [harith, hadd, ih (qadd qc q) (fun r hr => hfin r (List.mem_cons_of_mem _ hr))]
        simp [hb2, hq]

/-- Full composition of the two loops, including the head sample, which
the derivative loop always marks absent. -/
theorem deriv_int_head (l : List (F × Bool))
    (hfin : ∀ p ∈ l, p.2 = false → ∃ q, p.1 = F.fin q) :
    derivGo true (((intGo (F.fin 0) l).map Prod.fst).headD F.nan) (intGo (F.fin 0) l)
      = match l with
        | [] => []
        | _ :: rest =>
            (F.fin 0, true)
              :: rest.map (fun p => if p.2 then (F.fin 0, true) else (p.1, false)) := by
  cases l with
  | nil => rfl
  | cons p rest =>
      by_cases hb : p.2 = true
      · have hint : intGo (F.fin 0) (p :: rest)
            = (F.fin 0, true) :: intGo (F.fin 0) rest := by
          show (if p.2 then (F.fin 0, true) :: intGo (F.fin 0) rest else _) = _
          rw [if_pos hb]
        rw [hint]
        show (F.fin 0, true) :: derivGo false (F.fin 0) (intGo (F.fin 0) rest) = _
        rw [deriv_int_tail rest 0 (fun r hr => hfin r (List.mem_cons_of_mem _ hr))]
      · have hb2 : p.2 = false := by
          cases h2 : p.2
          · rfl
          · exact absurd h2 hb
        obtain ⟨q, hq⟩ := hfin p (List.mem_cons_self _ _) hb2
        have hint : intGo (F.fin 0) (p :: rest)
            = (F.fin (qadd 0 q), false) :: intGo (F.fin (qadd 0 q)) rest := by
          show (if p.2 then _
              else (F.add (F.fin 0) p.1, false) :: intGo (F.add (F.fin 0) p.1) rest) = _
          rw [if_neg hb, hq]
          rfl
        rw [hint]
        show (F.fin 0, true)
            :: derivGo false (F.fin (qadd 0 q)) (intGo (F.fin (qadd 0 q)) rest) = _
        rw [deriv_int_tail rest (qadd 0 q)
          (fun r hr => hfin r (List.mem_cons_of_mem _ hr))]

/-- `deriv_int_head` specialised to a nonempty pair list. -/
theorem deriv_int_cons (p0 : F × Bool) (rest : List (F × Bool))
    (hfin : ∀ p ∈ p0 :: rest, p.2 = false → ∃ q, p.1 = F.fin q) :
    derivGo true (((intGo (F.fin 0) (p0 :: rest)).map Prod.fst).headD F.nan)
        (intGo (F.fin 0) (p0 :: rest))
      = (F.fin 0, true)
          :: rest.map (fun p => if p.2 then (F.fin 0, true) else (p.1, false)) :=
  deriv_int_head (p0 :: rest) hfin

/-- Claim C6: for a single series `x` (with at least two non-absent
samples, and present samples finite — the embedding computes exactly where
Go floats would round), `derivative(integral(x))` is a single series that
agrees with `x` in value and presence at every index `i >= 1` where `x` is
non-absent. -/
theorem deriv_integral_C6 (x : Expr) (v v2 : F) (vs vs2 a a2 : String)
    (reqFrom reqUntil : Int) (V : Values) (A : MetricData)
    (hgx : getSeriesFrom x (evalExpr x reqFrom reqUntil V) = .ok [some A])
    (hfin : ∀ p ∈ zipPad A.values A.isAbsent, p.2 = false → ∃ q, p.1 = F.fin q)
    (htwo : 2 ≤ ((zipPad A.values A.isAbsent).filter (fun p => !p.2)).length) :
    ∃ D : MetricData,
      evalExpr (.mk "derivative" .etFunc v vs
          (.cons (.mk "integral" .etFunc v2 vs2 (.cons x .nil) a2) .nil) a)
        reqFrom reqUntil V = [some D]
      ∧ ∀ i, 1 ≤ i → i < A.values.length → bidx A.isAbsent i = false →
          bidx D.isAbsent i = false ∧ fidx D.values i = fidx A.values i := by
  have e2 : evalExpr (.mk "integral" .etFunc v2 vs2 (.cons x .nil) a2)
        reqFrom reqUntil V
      = forEachFrom "integral"
          (getSeriesFrom x (evalExpr x reqFrom reqUntil V)) integralFn := rfl
  have hIE : evalExpr (.mk "integral" .etFunc v2 vs2 (.cons x .nil) a2)
        reqFrom reqUntil V
      = [some (integralFn A (freshCopy "integral" A))] := by
    rw [e2, hgx]
    rfl
  have e1 : evalExpr (.mk "derivative" .etFunc v vs
        (.cons (.mk "integral" .etFunc v2 vs2 (.cons x .nil) a2) .nil) a)
        reqFrom reqUntil V
      = forEachFrom "derivative"
          (getSeriesFrom (.mk "integral" .etFunc v2 vs2 (.cons x .nil) a2)
            (evalExpr (.mk "integral" .etFunc v2 vs2 (.cons x .nil) a2)
              reqFrom reqUntil V))
          derivativeFn := rfl
  have hE : evalExpr (.mk "derivative" .etFunc v vs
        (.cons (.mk "integral" .etFunc v2 vs2 (.cons x .nil) a2) .nil) a)
        reqFrom reqUntil V
      = [some (derivativeFn (integralFn A (freshCopy "integral" A))
          (freshCopy "derivative" (integralFn A (freshCopy "integral" A))))] := by
    rw [e1, hIE]
    rfl
  refine ⟨_, hE, ?_⟩
  intro i h1 h2 habs
  obtain ⟨n, rfl⟩ : ∃ n, i = n + 1 := ⟨i - 1, by omega⟩
  have hzip : zipPad ((intGo (F.fin 0) (zipPad A.values A.isAbsent)).map Prod.fst)
        ((intGo (F.fin 0) (zipPad A.values A.isAbsent)).map Prod.snd)
      = intGo (F.fin 0) (zipPad A.values A.isAbsent) := by
    rw [zipPad_map]
    simp
  have hDv0 : (derivativeFn (integralFn A (freshCopy "integral" A))
        (freshCopy "derivative" (integralFn A (freshCopy "integral" A)))).values
      = (derivGo true
          (((intGo (F.fin 0) (zipPad A.values A.isAbsent)).map Prod.fst).headD F.nan)
          (zipPad ((intGo (F.fin 0) (zipPad A.values A.isAbsent)).map Prod.fst)
            ((intGo (F.fin 0) (zipPad A.values A.isAbsent)).map Prod.snd))).map
          Prod.fst := rfl
  have hDa0 : (derivativeFn (integralFn A (freshCopy "integral" A))
        (freshCopy "derivative" (integralFn A (freshCopy "integral" A)))).isAbsent
      = (derivGo true
          (((intGo (F.fin 0) (zipPad A.values A.isAbsent)).map Prod.fst).headD F.nan)
          (zipPad ((intGo (F.fin 0) (zipPad A.values A.isAbsent)).map Prod.fst)
            ((intGo (F.fin 0) (zipPad A.values A.isAbsent)).map Prod.snd))).map
          Prod.snd := rfl
  rw [hzip] at hDv0 hDa0
  cases hl : zipPad A.values A.isAbsent with
  | nil =>
      have hzl := zipPad_length A.values A.isAbsent
      rw [hl] at hzl
      simp at hzl
      omega
  | cons p0 restL =>
      have hfin2 := hfin
      rw [hl] at hfin2 hDv0 hDa0
      rw [deriv_int_cons p0 restL hfin2] at hDv0 hDa0
      have h3 := zipPad_get A.values A.isAbsent (n + 1) h2
      rw [hl, habs] at h3
      have hres : restL.get? n = some (fidx A.values (n + 1), false) := by
        simpa using h3
      constructor
      · rw [hDa0]
        unfold bidx
        rw [List.getD_eq_get?, List.get?_map]
        simp only [List.get?_cons_succ]
        rw [List.get?_map, hres]
        rfl
      · rw [hDv0]
        unfold fidx
        rw [List.get?_map]
        simp only [List.get?_cons_succ]
        rw [List.get?_map, hres]
        rfl

theorem deriv_integral_C6_witness :
    (getSeriesFrom (nameE "m") (evalExpr (nameE "m") 0 1 vC6) = .ok [some xC6]
     ∧ (∀ p ∈ zipPad xC6.values xC6.isAbsent, p.2 = false → ∃ q, p.1 = F.fin q)
     ∧ 2 ≤ ((zipPad xC6.values xC6.isAbsent).filter (fun p => !p.2)).length)
    ∧ ∃ D : MetricData,
        evalExpr (.mk "derivative" .etFunc (.fin 0) ""
            (.cons (.mk "integral" .etFunc (.fin 0) "" (.cons (nameE "m") .nil) "m")
              .nil) "integral(m)")
          0 1 vC6 = [some D]
        ∧ ∀ i, 1 ≤ i → i < xC6.values.length → bidx xC6.isAbsent i = false →
            bidx D.isAbsent i = false ∧ fidx D.values i = fidx xC6.values i :=
  ⟨⟨by decide,
    by
      intro p hp hb
      simp [zipPad, xC6] at hp
      rcases hp with rfl | rfl | rfl | rfl
      · exact ⟨1, rfl⟩
      · exact ⟨5, rfl⟩
      · exact absurd hb (by decide)
      · exact ⟨4, rfl⟩,
    by decide⟩,
   deriv_integral_C6 (nameE "m") (.fin 0) (.fin 0) "" "" "integral(m)" "m" 0 1 vC6
     xC6 (by decide)
     (by
       intro p hp hb
       simp [zipPad, xC6] at hp
       rcases hp with rfl | rfl | rfl | rfl
       · exact ⟨1, rfl⟩
       · exact ⟨5, rfl⟩
       · exact absurd hb (by decide)
       · exact ⟨4, rfl⟩)
     (by decide)⟩

/-- `metricHeap.Swap` preserves the slice length. -/
theorem mheSwap_length (l : List MHE) (i j : Nat) : (mheSwap l i j).length = l.length := by
  simp [mheSwap]

/-- The sift-down loop preserves the slice length. -/
theorem heapDownF_length (fuel : Nat) : ∀ (l : List MHE) (i n : Nat),
    (heapDownF fuel l i n).1.length = l.length := by
  induction fuel with
  | zero => intro l i n; rfl
  | succ f ih =>
      intro l i n
      dsimp only [heapDownF]
      split
      · rfl
      · split
        all_goals
          split
          · rfl
          · rw [ih, mheSwap_length]

/-- `heap.Pop` shortens the heap by one element. -/
theorem heapPop_length (l : List MHE) : (heapPop l).2.length = l.length - 1 := by
  dsimp only [heapPop, heapDown]
  rw [List.length_take, heapDownF_length, mheSwap_length]
  omega

/-- The drain loop preserves the length of the result slice. -/
theorem heapDrainF_length (fuel : Nat) : ∀ (mh : List MHE)
    (arg : List (Option MetricData)) (results : List (Option (Option MetricData))),
    (heapDrainF fuel mh arg results).length = results.length := by
  induction fuel with
  | zero => intro mh arg results; rfl
  | succ f ih =>
      intro mh arg results
      dsimp only [heapDrainF]
      by_cases h : mh.length = 0
      · rw [if_pos h]
      · rw [if_neg h, ih]
        simp

/-- The drain loop only writes below the current heap length, so every
slot at an index at or above it keeps its initial value. -/
theorem heapDrainF_untouched (fuel : Nat) : ∀ (mh : List MHE)
    (arg : List (Option MetricData)) (results : List (Option (Option MetricData)))
    (i : Nat), mh.length ≤ i →
    (heapDrainF fuel mh arg results).get? i = results.get? i := by
  induction fuel with
  | zero => intro mh arg results i _; rfl
  | succ f ih =>
      intro mh arg results i hi
      dsimp only [heapDrainF]
      by_cases h : mh.length = 0
      · rw [if_pos h]
      · rw [if_neg h]
        have hlt : (heapPop mh).2.length < mh.length := by
          rw [heapPop_length]
          omega
        rw [ih _ _ _ i (by omega)]
        apply List.get?_set_ne
        omega

/-- Indexing a replicated list below its length. -/
theorem replicate_get? {α : Type} (x : α) (n i : Nat) (h : i < n) :
    (List.replicate n x).get? i = some x := by
  induction n generalizing i with
  | zero => omega
  | succ m ih =>
      cases i with
      | zero => rfl
      | succ j =>
          show (List.replicate m x).get? j = some x
          exact ih j (by omega)

/-- The `highest*` body returns exactly `n` slots, and every slot at or
beyond the number of collected heap entries still holds the nil it was
preallocated with. -/
theorem highestImpl_spec (t : String) (arg : List (Option MetricData)) (n : Int)
    (h : n ≤ (arg.length : Int)) :
    (highestImpl t arg n).length = n.toNat
    ∧ ∀ i, (highestCollect t arg n).length ≤ i → i < n.toNat →
        (highestImpl t arg n).get? i = some none := by
  have hif : ¬((arg.length : Int) < n) := not_lt.mpr h
  constructor
  · unfold highestImpl
    rw [if_neg hif]
    dsimp only
    rw [List.length_map, heapDrainF_length, List.length_replicate]
  · intro i h1 h2
    unfold highestImpl
    rw [if_neg hif]
    dsimp only
    rw [List.get?_map, heapDrainF_untouched _ _ _ _ i h1, replicate_get? _ _ _ h2]
    rfl

/-- Claim C9, counterexample: `highestAverage(m, 2)` over two series of
which only one has a non-NaN average returns a length-2 slice whose
LEADING entry is the qualifying series and whose TRAILING entry is nil —
the opposite of the claimed leading-nil layout (`results[len(mh)]` is
evaluated after the pop, so pops fill indices `k-1 … 0`). -/
theorem highest_trailing_C9_counterexample :
    evalExpr highE 0 1 vC9 = [some aC9, none]
    ∧ (evalExpr highE 0 1 vC9).get? 0 ≠ some none
    ∧ (evalExpr highE 0 1 vC9).get? 1 = some none := by decide

/-- Claim C9, amended: for the three `highest*` functions with `n` at most
the input count, the returned slice has length `n` and its TRAILING
entries — every index at or beyond the number of series collected into the
heap (those with non-NaN reduced value, capped at `n`) — are nil, so
callers can receive nil elements at the public interface. -/
theorem highest_trailing_C9_amended (t : String)
    (ht : t ∈ ["highestAverage", "highestCurrent", "highestMax"])
    (v : F) (vs a : String) (a0 : Expr) (rest : ExprList)
    (reqFrom reqUntil : Int) (V : Values)
    (arg : List (Option MetricData)) (n : Int)
    (hg : getSeriesFrom a0 (evalExpr a0 reqFrom reqUntil V) = .ok arg)
    (hn : getIntArgL (.cons a0 rest) 1 = .ok n)
    (hlen : n ≤ (arg.length : Int)) :
    (evalExpr (.mk t .etFunc v vs (.cons a0 rest) a) reqFrom reqUntil V).length
      = n.toNat
    ∧ ∀ i, (highestCollect t arg n).length ≤ i → i < n.toNat →
        (evalExpr (.mk t .etFunc v vs (.cons a0 rest) a) reqFrom reqUntil V).get? i
          = some none := by
  cases rest with
  | nil => exact Except.noConfusion hn
  | cons a1 rest2 =>
      simp only [List.mem_cons, List.not_mem_nil, or_false] at ht
      have hEv : evalExpr (.mk t .etFunc v vs (.cons a0 (.cons a1 rest2)) a)
          reqFrom reqUntil V = highestImpl t arg n := by
        rcases ht with rfl|rfl|rfl
        all_goals
          first
          | (show highestFrom "highestAverage"
                (getSeriesFrom a0 (evalExpr a0 reqFrom reqUntil V))
                (getIntArgL (.cons a0 (.cons a1 rest2)) 1) = _
             rw [hg, hn]
             rfl)
          | (show highestFrom "highestCurrent"
                (getSeriesFrom a0 (evalExpr a0 reqFrom reqUntil V))
                (getIntArgL (.cons a0 (.cons a1 rest2)) 1) = _
             rw [hg, hn]
             rfl)
          | (show highestFrom "highestMax"
                (getSeriesFrom a0 (evalExpr a0 reqFrom reqUntil V))
                (getIntArgL (.cons a0 (.cons a1 rest2)) 1) = _
             rw [hg, hn]
             rfl)
      rw [hEv]
      exact highestImpl_spec t arg n hlen

theorem highest_trailing_C9_witness :
    ("highestAverage" ∈ (["highestAverage", "highestCurrent", "highestMax"]
        : List String)
     ∧ getSeriesFrom (nameE "m") (evalExpr (nameE "m") 0 1 vC9)
         = .ok [some aC9, some bC9]
     ∧ getIntArgL (.cons (nameE "m") (.cons (constE 2) .nil)) 1 = .ok 2
     ∧ (2 : Int) ≤ (([some aC9, some bC9] : List (Option MetricData)).length : Int))
    ∧ ((evalExpr (.mk "highestAverage" .etFunc (.fin 0) ""
          (.cons (nameE "m") (.cons (constE 2) .nil)) "") 0 1 vC9).length
        = (2 : Int).toNat
       ∧ ∀ i, (highestCollect "highestAverage" [some aC9, some bC9] 2).length ≤ i →
           i < (2 : Int).toNat →
           (evalExpr (.mk "highestAverage" .etFunc (.fin 0) ""
             (.cons (nameE "m") (.cons (constE 2) .nil)) "") 0 1 vC9).get? i
             = some none) :=
  ⟨⟨by decide, by decide, by decide, by decide⟩,
   highest_trailing_C9_amended "highestAverage" (by decide) (.fin 0) "" ""
     (nameE "m") (.cons (constE 2) .nil) 0 1 vC9 [some aC9, some bC9] 2
     (by decide) (by decide) (by decide)⟩
